import Mathlib

/-!
Verification development for the vacancy-scraper repository.

JavaScript strings are modelled as `List Char`; the host `fetch`, Playwright
and Redis effects are modelled as explicit environments of (possibly failing)
functions, `Except Unit` standing for thrown/caught exceptions.  Every
definition is translated from the TypeScript source; regex-based string
rewriting is embedded as equivalent character-level scanners.
-/

set_option autoImplicit false
set_option maxRecDepth 200000

namespace Scraper

/-- JavaScript strings, modelled as lists of characters. -/
abbrev Str := List Char

instance {ε α : Type} [DecidableEq ε] [DecidableEq α] : DecidableEq (Except ε α) :=
  fun a b =>
    match a, b with
    | .ok x, .ok y =>
      if h : x = y then .isTrue (by rw [h])
      else .isFalse (by intro hc; injection hc; contradiction)
    | .error x, .error y =>
      if h : x = y then .isTrue (by rw [h])
      else .isFalse (by intro hc; injection hc; contradiction)
    | .ok _, .error _ => .isFalse (by intro hc; cases hc)
    | .error _, .ok _ => .isFalse (by intro hc; cases hc)

/-- The characters matched by the JavaScript regex class `\s`
(restricted to the code points that can occur in this development). -/
def isJsSpace (c : Char) : Bool :=
  c == ' ' || c == '\t' || c == '\n' || c == '\r' || c == '\x0b' || c == '\x0c' || c == '\u00A0'

/-- `String.prototype.toLowerCase`, on the ASCII range used by the source. -/
def lowerStr (s : Str) : Str := s.map Char.toLower

/-- Case-insensitive prefix test (both sides compared after ASCII lowering). -/
def ciIsPrefixOf : Str → Str → Bool
  | [], _ => true
  | _ :: _, [] => false
  | p :: ps, c :: cs => (Char.toLower p == Char.toLower c) && ciIsPrefixOf ps cs

/-- Case-insensitive substring test: does `s` contain `pat`?
Models a `/pat/i.test(s)` regex test on a literal pattern. -/
def ciHasSub (pat : Str) : Str → Bool
  | [] => pat.isEmpty
  | s@(_ :: rest) => ciIsPrefixOf pat s || ciHasSub pat rest

/-- Case-sensitive substring test (JavaScript `String.prototype.includes`). -/
def hasSub (pat : Str) : Str → Bool
  | [] => pat.isEmpty
  | s@(_ :: rest) => pat.isPrefixOf s || hasSub pat rest

/-- Drop a case-insensitive literal prefix, returning the remainder. -/
def dropCi : Str → Str → Option Str
  | [], s => some s
  | _ :: _, [] => none
  | p :: ps, c :: cs => if Char.toLower p == Char.toLower c then dropCi ps cs else none

/-- Consume `[^>]*>`: skip to the first `>` and return what follows it. -/
def scanToGt : Str → Option Str
  | [] => none
  | c :: rest => if c == '>' then some rest else scanToGt rest

/-- `String.prototype.trim` (both ends, JavaScript whitespace). -/
def jsTrim (s : Str) : Str :=
  ((s.dropWhile isJsSpace).reverse.dropWhile isJsSpace).reverse

/-- State machine for `.replace(/<[^>]+>/g, ' ')`.  The first argument is
`none` outside a candidate tag and `some buf` when `buf` (reversed) has been
consumed since an opening `<` without meeting `>` yet. -/
def stripTagsSpaceGo : Option Str → Str → Str
  | none, [] => []
  | none, '<' :: rest => stripTagsSpaceGo (some ['<']) rest
  | none, c :: rest => c :: stripTagsSpaceGo none rest
  | some buf, [] => buf.reverse
  | some buf, '>' :: rest =>
      -- `[^>]+` needs at least one character between the brackets
      if buf == ['<'] then '<' :: '>' :: stripTagsSpaceGo none rest
      else ' ' :: stripTagsSpaceGo none rest
  | some buf, c :: rest => stripTagsSpaceGo (some (c :: buf)) rest

/-- `html.replace(/<[^>]+>/g, ' ')` from `needsJavaScript`. -/
def stripTagsSpace (s : Str) : Str := stripTagsSpaceGo none s

/-- State machine for `.replace(/\s+/g, ' ')`; the flag records whether the
previous character was whitespace (already emitted as one space). -/
def collapseWsGo : Bool → Str → Str
  | _, [] => []
  | prevSpace, c :: rest =>
      if isJsSpace c then
        if prevSpace then collapseWsGo true rest
        else ' ' :: collapseWsGo true rest
      else c :: collapseWsGo false rest

/-- `.replace(/\s+/g, ' ')`. -/
def collapseWs (s : Str) : Str := collapseWsGo false s

namespace ScraperService

/-- Match `/<div id="(root|app|__next)">\s*<\/div>/i` at the head of `s`. -/
def emptyRootDivAt (s : Str) : Bool :=
  match dropCi ("<div id=\"").toList s with
  | none => false
  | some r1 =>
    let after := fun (r : Option Str) =>
      match r with
      | none => false
      | some r2 => ciIsPrefixOf ("</div>").toList (r2.dropWhile isJsSpace)
    after (dropCi ("root\">").toList r1) ||
    after (dropCi ("app\">").toList r1) ||
    after (dropCi ("__next\">").toList r1)

/-- Match `/<noscript>.*enable javascript/i` at the head of `s`: after the
literal `<noscript>`, the literal `enable javascript` must occur before any
line terminator (`.` does not match line terminators). -/
def noscriptAt (s : Str) : Bool :=
  match dropCi ("<noscript>").toList s with
  | none => false
  | some r => noscriptScan r
where
  /-- Scan for `enable javascript` on the same line. -/
  noscriptScan : Str → Bool
    | [] => false
    | s@(c :: rest) =>
      if ciIsPrefixOf ("enable javascript").toList s then true
      else if c == '\n' || c == '\r' || c == '\u2028' || c == '\u2029' then false
      else noscriptScan rest

/-- Match `/<body[^>]*>\s*<\/body>/i` at the head of `s`. -/
def emptyBodyAt (s : Str) : Bool :=
  match dropCi ("<body").toList s with
  | none => false
  | some r1 =>
    match scanToGt r1 with
    | none => false
    | some r2 => ciIsPrefixOf ("</body>").toList (r2.dropWhile isJsSpace)

/-- Test a head-matcher at every position of the string (regex `test`). -/
def anyPos (p : Str → Bool) : Str → Bool
  | [] => p []
  | s@(_ :: rest) => p s || anyPos p rest

/-- `spaIndicators.some(pattern => pattern.test(html))` from
`ScraperService.needsJavaScript` (src/services/scraper.ts). -/
def hasSpaIndicator (html : Str) : Bool :=
  anyPos emptyRootDivAt html ||
  ciHasSub ("loading...").toList html ||
  anyPos noscriptAt html ||
  ciHasSub ("glimlach").toList html ||
  anyPos emptyBodyAt html

/-- `ScraperService.needsJavaScript` (src/services/scraper.ts, lines 6-24). -/
def needsJavaScript (html : Str) : Bool :=
  if html.length < 1000 then true
  else
    let textContent := jsTrim (collapseWs (stripTagsSpace html))
    let hasContent := decide (textContent.length > 500)
    hasSpaIndicator html || !hasContent

end ScraperService

/-- Result of `ScraperService.fetch`:
`{ html, usedPlaywright, status }` (the spec's FetchResult). -/
structure FetchResult where
  html : Str
  usedPlaywright : Bool
  status : Nat
  deriving DecidableEq, Repr

/-- The two effectful fetch channels of `ScraperService`, as a deterministic
environment: `http` models `fetchWithHttp`, `pw` models `fetchWithPlaywright`;
`Except.error ()` models a thrown exception. -/
structure FetchEnv where
  http : Str → Except Unit (Str × Nat)
  pw : Str → Except Unit (Str × Nat)

namespace ScraperService

/-- `ScraperService.fetch` (src/services/scraper.ts, lines 130-143): try HTTP;
on a 200 response whose body does not need JavaScript return it, otherwise
(including when the HTTP attempt throws) fall back to Playwright.  A Playwright
failure propagates. -/
def fetch (env : FetchEnv) (url : Str) : Except Unit FetchResult :=
  match env.http url with
  | .ok (html, status) =>
      if status == 200 && !needsJavaScript html then
        .ok ⟨html, false, status⟩
      else
        (env.pw url).map fun p => ⟨p.1, true, p.2⟩
  | .error _ =>
      (env.pw url).map fun p => ⟨p.1, true, p.2⟩

end ScraperService

namespace SHA256

/-!  A executable embedding of SHA-256 (`crypto.createHash('sha256')`),
over `Nat` words reduced modulo `2 ^ 32`.  -/

/-- `2 ^ 32`. -/
def w32 : Nat := 4294967296

/-- 32-bit addition. -/
def add32 (a b : Nat) : Nat := (a + b) % w32

/-- 32-bit right rotation. -/
def rotr (n x : Nat) : Nat := ((x >>> n) ||| (x <<< (32 - n))) % w32

/-- SHA-256 Σ₀. -/
def bigS0 (x : Nat) : Nat := rotr 2 x ^^^ rotr 13 x ^^^ rotr 22 x

/-- SHA-256 Σ₁. -/
def bigS1 (x : Nat) : Nat := rotr 6 x ^^^ rotr 11 x ^^^ rotr 25 x

/-- SHA-256 σ₀. -/
def smallS0 (x : Nat) : Nat := rotr 7 x ^^^ rotr 18 x ^^^ (x >>> 3)

/-- SHA-256 σ₁. -/
def smallS1 (x : Nat) : Nat := rotr 17 x ^^^ rotr 19 x ^^^ (x >>> 10)

/-- SHA-256 `Ch`. -/
def ch (x y z : Nat) : Nat := (x &&& y) ^^^ ((x ^^^ (w32 - 1)) &&& z)

/-- SHA-256 `Maj`. -/
def maj (x y z : Nat) : Nat := (x &&& y) ^^^ (x &&& z) ^^^ (y &&& z)

/-- The 64 SHA-256 round constants. -/
def K : List Nat :=
  [1116352408, 1899447441, 3049323471, 3921009573, 961987163,
   1508970993, 2453635748, 2870763221, 3624381080, 310598401,
   607225278, 1426881987, 1925078388, 2162078206, 2614888103,
   3248222580, 3835390401, 4022224774, 264347078, 604807628,
   770255983, 1249150122, 1555081692, 1996064986, 2554220882,
   2821834349, 2952996808, 3210313671, 3336571891, 3584528711,
   113926993, 338241895, 666307205, 773529912, 1294757372,
   1396182291, 1695183700, 1986661051, 2177026350, 2456956037,
   2730485921, 2820302411, 3259730800, 3345764771, 3516065817,
   3600352804, 4094571909, 275423344, 430227734, 506948616,
   659060556, 883997877, 958139571, 1322822218, 1537002063,
   1747873779, 1955562222, 2024104815, 2227730452, 2361852424,
   2428436474, 2756734187, 3204031479, 3329325298]

/-- The eight working words of the compression state. -/
structure Hash8 where
  a : Nat
  b : Nat
  c : Nat
  d : Nat
  e : Nat
  f : Nat
  g : Nat
  h : Nat
  deriving DecidableEq, Repr

/-- The SHA-256 initial hash value. -/
def initH : Hash8 :=
  ⟨1779033703, 3144134277, 1013904242, 2773480762,
   1359893119, 2600822924, 528734635, 1541459225⟩

/-- UTF-8 encoding of one character (Node's `Hash.update` default encoding). -/
def utf8Char (c : Char) : List Nat :=
  let n := c.toNat
  if n < 0x80 then [n]
  else if n < 0x800 then [0xC0 ||| (n >>> 6), 0x80 ||| (n &&& 0x3F)]
  else if n < 0x10000 then
    [0xE0 ||| (n >>> 12), 0x80 ||| ((n >>> 6) &&& 0x3F), 0x80 ||| (n &&& 0x3F)]
  else
    [0xF0 ||| (n >>> 18), 0x80 ||| ((n >>> 12) &&& 0x3F),
     0x80 ||| ((n >>> 6) &&& 0x3F), 0x80 ||| (n &&& 0x3F)]

/-- UTF-8 encoding of a string as a byte list. -/
def utf8 (s : Str) : List Nat := (s.map utf8Char).flatten

/-- Big-endian bytes of the 64-bit message bit length. -/
def lenBytes (bitLen : Nat) : List Nat :=
  [(bitLen >>> 56) % 256, (bitLen >>> 48) % 256, (bitLen >>> 40) % 256, (bitLen >>> 32) % 256,
   (bitLen >>> 24) % 256, (bitLen >>> 16) % 256, (bitLen >>> 8) % 256, bitLen % 256]

/-- SHA-256 message padding. -/
def pad (msg : List Nat) : List Nat :=
  let len := msg.length
  let zeros := (64 - ((len + 9) % 64)) % 64
  msg ++ [0x80] ++ List.replicate zeros 0 ++ lenBytes (len * 8)

/-- Split a byte list into 64-byte chunks (`cur` is the reversed current
chunk, `k` its size). -/
def chunksGo : List Nat → List Nat → Nat → List (List Nat)
  | [], cur, _ => if cur.isEmpty then [] else [cur.reverse]
  | b :: rest, cur, k =>
      if k = 63 then (b :: cur).reverse :: chunksGo rest [] 0
      else chunksGo rest (b :: cur) (k + 1)

/-- Split a byte list into 64-byte chunks. -/
def chunks64 (bytes : List Nat) : List (List Nat) := chunksGo bytes [] 0

/-- Big-endian 32-bit words of a byte list. -/
def toWords : List Nat → List Nat
  | b0 :: b1 :: b2 :: b3 :: rest =>
      ((b0 <<< 24) ||| (b1 <<< 16) ||| (b2 <<< 8) ||| b3) :: toWords rest
  | _ => []

/-- Extend the message schedule; `acc` holds the words produced so far,
newest first. -/
def scheduleGo : Nat → List Nat → List Nat
  | 0, acc => acc.reverse
  | n + 1, acc =>
      let nw := add32 (add32 (smallS1 (acc.getD 1 0)) (acc.getD 6 0))
        (add32 (smallS0 (acc.getD 14 0)) (acc.getD 15 0))
      scheduleGo n (nw :: acc)

/-- The 64-word message schedule of one block. -/
def schedule (first16 : List Nat) : List Nat := scheduleGo 48 first16.reverse

/-- One SHA-256 round. -/
def step (st : Hash8) (kw : Nat × Nat) : Hash8 :=
  let t1 := add32 (add32 (add32 st.h (bigS1 st.e)) (add32 (ch st.e st.f st.g) kw.1)) kw.2
  let t2 := add32 (bigS0 st.a) (maj st.a st.b st.c)
  ⟨add32 t1 t2, st.a, st.b, st.c, add32 st.d t1, st.e, st.f, st.g⟩

/-- Compress one 64-byte block into the running hash. -/
def compressBlock (h0 : Hash8) (block : List Nat) : Hash8 :=
  let st := ((schedule (toWords block)).zip K |>.map fun p => (p.2, p.1)).foldl step h0
  ⟨add32 h0.a st.a, add32 h0.b st.b, add32 h0.c st.c, add32 h0.d st.d,
   add32 h0.e st.e, add32 h0.f st.f, add32 h0.g st.g, add32 h0.h st.h⟩

/-- One lowercase hexadecimal digit. -/
def hexDigit (n : Nat) : Char :=
  if n < 10 then Char.ofNat (48 + n) else Char.ofNat (87 + n)

/-- Eight lowercase hexadecimal digits of a 32-bit word. -/
def wordHex (x : Nat) : List Char :=
  [hexDigit ((x >>> 28) % 16), hexDigit ((x >>> 24) % 16),
   hexDigit ((x >>> 20) % 16), hexDigit ((x >>> 16) % 16),
   hexDigit ((x >>> 12) % 16), hexDigit ((x >>> 8) % 16),
   hexDigit ((x >>> 4) % 16), hexDigit (x % 16)]

/-- The eight hash words of a byte message. -/
def digestWords (msg : List Nat) : List Nat :=
  let fin := (chunks64 (pad msg)).foldl compressBlock initH
  [fin.a, fin.b, fin.c, fin.d, fin.e, fin.f, fin.g, fin.h]

/-- `createHash('sha256').update(s).digest('hex')`: the lowercase hex digest
of the UTF-8 encoding of `s`. -/
def hexDigest (s : Str) : Str := ((digestWords (utf8 s)).map wordHex).flatten

end SHA256

/-- An entry of `CacheService`'s in-process `memoryCache` map:
`{ data, expires }`, `expires` in milliseconds since the epoch. -/
structure MemEntry (α : Type) where
  data : α
  expires : Nat
  deriving DecidableEq, Repr

/-- The primary (Redis) store of `CacheService` as an environment of possibly
failing operations.  Values are modelled after JSON (de)serialization, whose
failures are folded into `Except.error` like any other primary-store error. -/
structure RedisEnv (α : Type) where
  get : Str → Except Unit (Option α)
  setex : Str → Nat → α → Except Unit Unit

/-- The mutable state of a `CacheService` instance: its process-local
`memoryCache` map. -/
structure CacheState (α : Type) where
  memoryCache : Str → Option (MemEntry α)

/-- The empty local cache. -/
def CacheState.empty (α : Type) : CacheState α := ⟨fun _ => none⟩

namespace CacheService

/-- The default TTL of `CacheService`: 24 hours, in seconds
(`private ttl` in src/services/cache.ts). -/
def defaultTtl : Nat := 24 * 60 * 60

/-- `CacheService.keyFor` (src/services/cache.ts, lines 15-17). -/
def keyFor (domain : Str) : Str :=
  ("vacancy:").toList ++ (SHA256.hexDigest (lowerStr domain)).take 16

/-- `CacheService.get` (src/services/cache.ts, lines 19-35).  `redis` is
`some env` when a Redis URL was configured; `now` models `Date.now()` in
milliseconds.  Returns the value (`none` = JS `null`) and the updated local
state. -/
def get {α : Type} (redis : Option (RedisEnv α)) (st : CacheState α) (now : Nat)
    (key : Str) : Option α × CacheState α :=
  match redis with
  | some env =>
    match env.get key with
    | .ok d => (d, st)
    | .error _ => (none, st)
  | none =>
    match st.memoryCache key with
    | some cached =>
      if now < cached.expires then (some cached.data, st)
      else (none, ⟨fun k => if k = key then none else st.memoryCache k⟩)
    | none => (none, ⟨fun k => if k = key then none else st.memoryCache k⟩)

/-- `CacheService.set` (src/services/cache.ts, lines 37-52): try the primary
store; on a primary error (or with no primary configured) write to the local
map with expiry `now + ttl·1000`.  Never throws. -/
def set {α : Type} (redis : Option (RedisEnv α)) (st : CacheState α) (now : Nat)
    (key : Str) (data : α) (ttl : Option Nat) : CacheState α :=
  let expiry := ttl.getD defaultTtl
  match redis with
  | some env =>
    match env.setex key expiry data with
    | .ok _ => st
    | .error _ =>
        ⟨fun k => if k = key then some ⟨data, now + expiry * 1000⟩ else st.memoryCache k⟩
  | none =>
      ⟨fun k => if k = key then some ⟨data, now + expiry * 1000⟩ else st.memoryCache k⟩

end CacheService

/-- A primary store whose every operation fails. -/
def redisFailEnv : RedisEnv Nat :=
  ⟨fun _ => .error (), fun _ _ _ => .error ()⟩

/-- The empty-root shell page from the repository's scraper test
(`src/services/__tests__/scraper.test.ts`). -/
def emptyRootShellHtml : Str :=
  ("<html><body><div id=\"root\"></div><script src=\"app.js\"></script></body></html>").toList

/-- A page whose body is empty. -/
def emptyBodyHtml : Str := ("<html><body></body></html>").toList

/-- A page with more than 500 characters of rendered text that also contains
the shell marker string `loading...`. -/
def longShellHtml : Str := List.replicate 1200 'a' ++ (" loading...").toList

/-- A fetch environment whose HTTP channel always throws and whose Playwright
channel always succeeds. -/
def httpFailEnv : FetchEnv where
  http := fun _ => .error ()
  pw := fun _ => .ok (("rendered").toList, 200)

/-- A fetch environment whose HTTP channel returns a short 200 page. -/
def shortPageEnv : FetchEnv where
  http := fun _ => .ok (("tiny").toList, 200)
  pw := fun _ => .ok (("rendered").toList, 200)

/-! ### Content extractor (ContentExtractor, src/services — src/unnamed/part_003)

The regex passes of the extractor are embedded as character-level scanners.
Scanners that jump forward after a match take an explicit `fuel` argument so
that they are structurally recursive; callers pass the input length plus one,
which suffices because every step consumes at least one input character. -/

/-- State machine for `.replace(/<[^>]+>/g, '')`
(`ContentExtractor.stripTags`): like `stripTagsSpaceGo`, removing instead of
replacing by a space. -/
def stripTagsGo : Option Str → Str → Str
  | none, [] => []
  | none, '<' :: rest => stripTagsGo (some ['<']) rest
  | none, c :: rest => c :: stripTagsGo none rest
  | some buf, [] => buf.reverse
  | some buf, '>' :: rest =>
      if buf == ['<'] then '<' :: '>' :: stripTagsGo none rest
      else stripTagsGo none rest
  | some buf, c :: rest => stripTagsGo (some (c :: buf)) rest

/-- `ContentExtractor.stripTags`: `.replace(/<[^>]+>/g, '')`. -/
def stripTags (s : Str) : Str := stripTagsGo none s

/-- Lazy body scan `[\s\S]*?close`: the first position where `tryClose`
succeeds splits the input into the captured body and the remainder after the
close. -/
def scanBody (tryClose : Str → Option Str) : Str → Option (Str × Str)
  | [] =>
    match tryClose [] with
    | some after => some ([], after)
    | none => none
  | s@(c :: rest) =>
    match tryClose s with
    | some after => some ([], after)
    | none => (scanBody tryClose rest).map fun p => (c :: p.1, p.2)

/-- Global replace of a block pattern `open [\s\S]*? close`, the replacement
computed by `f` from the captured body. -/
def replaceBlocks (tryOpen tryClose : Str → Option Str) (f : Str → Str) :
    Nat → Str → Str
  | 0, s => s
  | _ + 1, [] => []
  | fuel + 1, s@(c :: rest) =>
    match tryOpen s with
    | some afterOpen =>
      match scanBody tryClose afterOpen with
      | some (captured, after) =>
          f captured ++ replaceBlocks tryOpen tryClose f fuel after
      | none => c :: replaceBlocks tryOpen tryClose f fuel rest
    | none => c :: replaceBlocks tryOpen tryClose f fuel rest

/-- Global replace of a single-token pattern by a constant replacement. -/
def replaceToken (tryMatch : Str → Option Str) (rep : Str) : Nat → Str → Str
  | 0, s => s
  | _ + 1, [] => []
  | fuel + 1, s@(c :: rest) =>
    match tryMatch s with
    | some after => rep ++ replaceToken tryMatch rep fuel after
    | none => c :: replaceToken tryMatch rep fuel rest

/-- Collect `f body` for every match of a block pattern (regex `exec` loop). -/
def collectBlocks (tryOpen tryClose : Str → Option Str) (f : Str → Str) :
    Nat → Str → List Str
  | 0, _ => []
  | _ + 1, [] => []
  | fuel + 1, s@(_ :: rest) =>
    match tryOpen s with
    | some afterOpen =>
      match scanBody tryClose afterOpen with
      | some (captured, after) => f captured :: collectBlocks tryOpen tryClose f fuel after
      | none => collectBlocks tryOpen tryClose f fuel rest
    | none => collectBlocks tryOpen tryClose f fuel rest

/-- First match of a block pattern (non-global regex `match`), returning the
captured body. -/
def firstBlockCapture (tryOpen tryClose : Str → Option Str) : Str → Option Str
  | [] => none
  | s@(_ :: rest) =>
    match tryOpen s with
    | some afterOpen =>
      match scanBody tryClose afterOpen with
      | some (captured, _) => some captured
      | none => firstBlockCapture tryOpen tryClose rest
    | none => firstBlockCapture tryOpen tryClose rest

/-- First position where `p` yields a value (non-global regex `match`). -/
def firstSome {β : Type} (p : Str → Option β) : Str → Option β
  | [] => p []
  | s@(_ :: rest) =>
    match p s with
    | some v => some v
    | none => firstSome p rest

/-- Match `<name[^>]*>` at the head (case-insensitive). -/
def openTag (name : Str) (s : Str) : Option Str :=
  match dropCi ('<' :: name) s with
  | none => none
  | some r => scanToGt r

/-- Match `</name>` at the head (case-insensitive). -/
def closeTag (name : Str) (s : Str) : Option Str :=
  dropCi ('<' :: '/' :: (name ++ ['>'])) s

/-- The single-quote character (written via its code point). -/
def sq : Char := Char.ofNat 39

/-- Is `c` one of the two quote characters of the regexes `["']`? -/
def isQuote (c : Char) : Bool := c == '"' || c == sq

/-- Exact literal token matcher (case-sensitive). -/
def litTok (pat : Str) (s : Str) : Option Str :=
  if pat.isPrefixOf s then some (s.drop pat.length) else none

/-- Scan `[^"']*icon[^"']*["']` after an opening quote: characters other than
quotes until the closing quote, requiring the literal `icon` to occur. -/
def iconValScan : Str → Bool → Option Str
  | [], _ => none
  | c :: rest, seen =>
    if isQuote c then
      if seen then some rest else none
    else iconValScan rest (seen || ciIsPrefixOf ("icon").toList (c :: rest))

/-- Scan for `class=["'][^"']*icon[^"']*["'][^>]*>` inside an open tag whose
attribute region (`[^>]+` in the regex) must be non-empty; `k` counts the
characters consumed so far. -/
def iconAttrScan : Nat → Str → Option Str
  | _, [] => none
  | k, s@(c :: rest) =>
    if c == '>' then none
    else
      match (if 1 ≤ k then dropCi ("class=").toList s else none) with
      | some (q :: r2) =>
        if isQuote q then
          match iconValScan r2 false with
          | some r3 => scanToGt r3
          | none => iconAttrScan (k + 1) rest
        else iconAttrScan (k + 1) rest
      | _ => iconAttrScan (k + 1) rest

/-- Match `<name[^>]+class=["'][^"']*icon[^"']*["'][^>]*>` at the head. -/
def openIconTag (name : Str) (s : Str) : Option Str :=
  match dropCi ('<' :: name) s with
  | none => none
  | some r => iconAttrScan 0 r

/-- Capture `[^"']+["']` after an opening quote: the non-empty quoted value
and the remainder after the closing quote. -/
def quotedCapture1 : Str → Str → Option (Str × Str)
  | [], _ => none
  | c :: rest, acc =>
    if isQuote c then
      if acc.isEmpty then none else some (acc.reverse, rest)
    else quotedCapture1 rest (c :: acc)

/-- Scan for `href=["']([^"']+)["'][^>]*>` inside an open tag whose attribute
region must be non-empty; returns the captured href value and the remainder
after the closing `>`. -/
def anchorHrefScan : Nat → Str → Option (Str × Str)
  | _, [] => none
  | k, s@(c :: rest) =>
    if c == '>' then none
    else
      match (if 1 ≤ k then dropCi ("href=").toList s else none) with
      | some (q :: r2) =>
        if isQuote q then
          match quotedCapture1 r2 [] with
          | some (href, r3) =>
            match scanToGt r3 with
            | some r4 => some (href, r4)
            | none => none
          | none => anchorHrefScan (k + 1) rest
        else anchorHrefScan (k + 1) rest
      | _ => anchorHrefScan (k + 1) rest

/-- Match `<a[^>]+href=["']([^"']+)["'][^>]*>` at the head, returning the
captured href and the remainder. -/
def openAnchorHref (s : Str) : Option (Str × Str) :=
  match dropCi ("<a").toList s with
  | none => none
  | some r => anchorHrefScan 0 r

/-- Match `<h[4-6][^>]*>` at the head. -/
def openTagH46 (s : Str) : Option Str :=
  match dropCi ("<h").toList s with
  | some (d :: r) =>
    if d == '4' || d == '5' || d == '6' then scanToGt r else none
  | _ => none

/-- Match `</h[4-6]>` at the head. -/
def closeTagH46 (s : Str) : Option Str :=
  match dropCi ("</h").toList s with
  | some (d :: c :: r) =>
    if (d == '4' || d == '5' || d == '6') && c == '>' then some r else none
  | _ => none

/-- Match `<h[1-6][^>]*>` at the head. -/
def openTagH16 (s : Str) : Option Str :=
  match dropCi ("<h").toList s with
  | some (d :: r) =>
    if '1' ≤ d && d ≤ '6' then scanToGt r else none
  | _ => none

/-- Match `</h[1-6]>` at the head. -/
def closeTagH16 (s : Str) : Option Str :=
  match dropCi ("</h").toList s with
  | some (d :: c :: r) =>
    if ('1' ≤ d && d ≤ '6') && c == '>' then some r else none
  | _ => none

/-- Match `<\/?[ou]l[^>]*>` at the head. -/
def olUlTag (s : Str) : Option Str :=
  match s with
  | '<' :: rest =>
    let rest2 := match rest with
      | '/' :: r => r
      | _ => rest
    match rest2 with
    | c1 :: c2 :: r =>
      if (Char.toLower c1 == 'o' || Char.toLower c1 == 'u') && Char.toLower c2 == 'l' then
        scanToGt r
      else none
    | _ => none
  | _ => none

/-- Match `<br\s*\/?>` at the head. -/
def brTag (s : Str) : Option Str :=
  match dropCi ("<br").toList s with
  | none => none
  | some r =>
    match r.dropWhile isJsSpace with
    | '/' :: '>' :: rest => some rest
    | '>' :: rest => some rest
    | _ => none

/-- Match `&#\d+;` at the head. -/
def numEntityTok (s : Str) : Option Str :=
  match litTok ("&#").toList s with
  | none => none
  | some (c :: rest) => if c.isDigit then numEntityScan rest else none
  | some [] => none
where
  /-- Remaining digits then `;`. -/
  numEntityScan : Str → Option Str
    | [] => none
    | c :: rest =>
      if c.isDigit then numEntityScan rest
      else if c == ';' then some rest else none

/-- Match `\*\*\s*\*\*` at the head. -/
def emptyBoldTok (s : Str) : Option Str :=
  match litTok ("**").toList s with
  | some r => litTok ("**").toList (r.dropWhile isJsSpace)
  | none => none

/-- Match `\*\s*\*` at the head. -/
def emptyItalTok (s : Str) : Option Str :=
  match litTok ("*").toList s with
  | some r => litTok ("*").toList (r.dropWhile isJsSpace)
  | none => none

/-- The Unicode private-use ranges removed by `htmlToMarkdown`. -/
def isPUA (c : Char) : Bool :=
  (0xE000 ≤ c.toNat && c.toNat ≤ 0xF8FF) || (0xF0000 ≤ c.toNat && c.toNat ≤ 0xFFFFD)

/-- State machine for `.replace(/[ \t]+/g, ' ')`. -/
def collapseSpaceTabGo : Bool → Str → Str
  | _, [] => []
  | prev, c :: rest =>
      if c == ' ' || c == '\t' then
        if prev then collapseSpaceTabGo true rest
        else ' ' :: collapseSpaceTabGo true rest
      else c :: collapseSpaceTabGo false rest

/-- Match `\n{3,}` (greedily) at the head. -/
def manyNlTok (s : Str) : Option Str :=
  match s with
  | '\n' :: '\n' :: '\n' :: rest => some (rest.dropWhile (· == '\n'))
  | _ => none

/-- The character class `[\s\-\|>•·→←]` of the leftover-punctuation-line
pass. -/
def punctLineChar (c : Char) : Bool :=
  isJsSpace c || c == '-' || c == '|' || c == '>' || c == '•' || c == '·' ||
    c == '→' || c == '←'

/-- Scan the maximal run of `punctLineChar`s, recording the remainder after
the last `\n` found at offset at least 1 (the backtracked literal `\n` of
`\n[\s\-\|>•·→←]+\n`). -/
def punctRunScan : Str → Option Str → Nat → Option Str
  | [], best, _ => best
  | c :: rest, best, k =>
    if punctLineChar c then
      if c == '\n' && 1 ≤ k then punctRunScan rest (some rest) (k + 1)
      else punctRunScan rest best (k + 1)
    else best

/-- Match `\n[\s\-\|>•·→←]+\n` at the head, returning the remainder after the
final `\n`. -/
def punctLineTok (s : Str) : Option Str :=
  match s with
  | '\n' :: rest => punctRunScan rest none 0
  | _ => none

namespace ContentExtractor

/-- Remove every `<name[^>]*>[\s\S]*?</name>` block. -/
def removeTagBlocks (name : Str) (s : Str) : Str :=
  replaceBlocks (openTag name) (closeTag name) (fun _ => []) (s.length + 1) s

/-- `ContentExtractor.extractMainContent`: strip scripts/styles/chrome/icons/
images/buttons, then isolate `<main>`, else `<article>`, else `<body>`, else
everything. -/
def extractMainContent (html : Str) : Str :=
  let c := html
  let c := removeTagBlocks ("script").toList c
  let c := removeTagBlocks ("style").toList c
  let c := removeTagBlocks ("noscript").toList c
  let c := removeTagBlocks ("svg").toList c
  let c := removeTagBlocks ("iframe").toList c
  let c := removeTagBlocks ("nav").toList c
  let c := removeTagBlocks ("header").toList c
  let c := removeTagBlocks ("footer").toList c
  let c := removeTagBlocks ("aside").toList c
  let c := removeTagBlocks ("form").toList c
  let c := replaceBlocks (openIconTag ("i").toList) (closeTag ("i").toList)
    (fun _ => []) (c.length + 1) c
  let c := replaceBlocks (openIconTag ("span").toList) (closeTag ("span").toList)
    (fun _ => []) (c.length + 1) c
  let c := replaceToken (openTag ("img").toList) [] (c.length + 1) c
  let c := removeTagBlocks ("button").toList c
  match firstBlockCapture (openTag ("main").toList) (closeTag ("main").toList) c with
  | some body => body
  | none =>
    match firstBlockCapture (openTag ("article").toList) (closeTag ("article").toList) c with
    | some body => body
    | none =>
      match firstBlockCapture (openTag ("body").toList) (closeTag ("body").toList) c with
      | some body => body
      | none => c

/-- The replacement of a heading block: `prefix ++ stripped ++ "\n\n"`. -/
def headingRepl (pre : Str) (text : Str) : Str :=
  pre ++ jsTrim (stripTags text) ++ ("\n\n").toList

/-- The replacement of a bold/italic block: wrap the stripped text in the
marker if it is non-empty. -/
def emphasisRepl (marker : Str) (text : Str) : Str :=
  let clean := jsTrim (stripTags text)
  if clean.isEmpty then [] else marker ++ clean ++ marker

/-- `ContentExtractor.htmlToMarkdown`: the full ordered pipeline of the
source's replace passes. -/
def htmlToMarkdown (html : Str) : Str :=
  let c := html
  let c := replaceBlocks (openTag ("h1").toList) (closeTag ("h1").toList)
    (headingRepl ("# ").toList) (c.length + 1) c
  let c := replaceBlocks (openTag ("h2").toList) (closeTag ("h2").toList)
    (headingRepl ("## ").toList) (c.length + 1) c
  let c := replaceBlocks (openTag ("h3").toList) (closeTag ("h3").toList)
    (headingRepl ("### ").toList) (c.length + 1) c
  let c := replaceBlocks openTagH46 closeTagH46
    (headingRepl ("### ").toList) (c.length + 1) c
  let c := replaceBlocks (openTag ("li").toList) (closeTag ("li").toList)
    (fun t => ("- ").toList ++ jsTrim (stripTags t) ++ ['\n']) (c.length + 1) c
  let c := replaceToken olUlTag ['\n'] (c.length + 1) c
  let c := replaceToken (litTok ("</p>").toList) (("\n\n").toList) (c.length + 1) c
  let c := replaceToken (openTag ("p").toList) [] (c.length + 1) c
  let c := replaceToken brTag ['\n'] (c.length + 1) c
  let c := replaceToken (litTok ("</div>").toList) juNl (c.length + 1) c
  let c := replaceToken (openTag ("div").toList) [] (c.length + 1) c
  let c := replaceBlocks
    (fun s => (openTag ("strong").toList s).orElse fun _ => openTag ("b").toList s)
    (fun s => (closeTag ("strong").toList s).orElse fun _ => closeTag ("b").toList s)
    (emphasisRepl ("**").toList) (c.length + 1) c
  let c := replaceBlocks
    (fun s => (openTag ("em").toList s).orElse fun _ => openTag ("i").toList s)
    (fun s => (closeTag ("em").toList s).orElse fun _ => closeTag ("i").toList s)
    (emphasisRepl ("*").toList) (c.length + 1) c
  let c := replaceBlocks (fun s => (openAnchorHref s).map (·.2)) (closeTag ("a").toList)
    (fun t => jsTrim (stripTags t)) (c.length + 1) c
  let c := stripTags c
  let c := replaceToken (litTok ("&amp;").toList) ['&'] (c.length + 1) c
  let c := replaceToken (litTok ("&lt;").toList) ['<'] (c.length + 1) c
  let c := replaceToken (litTok ("&gt;").toList) ['>'] (c.length + 1) c
  let c := replaceToken (litTok ("&quot;").toList) ['"'] (c.length + 1) c
  let c := replaceToken (litTok (("&#39;").toList)) [sq] (c.length + 1) c
  let c := replaceToken (litTok ("&nbsp;").toList) [' '] (c.length + 1) c
  let c := replaceToken numEntityTok [] (c.length + 1) c
  let c := replaceToken emptyBoldTok [] (c.length + 1) c
  let c := replaceToken emptyItalTok [] (c.length + 1) c
  let c := c.filter fun ch => !isPUA ch
  let c := collapseSpaceTabGo false c
  let c := replaceToken (litTok (" \n").toList) juNl (c.length + 1) c
  let c := replaceToken (litTok ("\n ").toList) juNl (c.length + 1) c
  let c := replaceToken manyNlTok (("\n\n").toList) (c.length + 1) c
  let c := replaceToken punctLineTok juNl (c.length + 1) c
  jsTrim c
where
  /-- A single newline. -/
  juNl : Str := ['\n']

/-- `ContentExtractor.extractHeadings`: all `<h1>`–`<h6>` texts, stripped and
trimmed, empty ones skipped. -/
def extractHeadings (html : Str) : List Str :=
  (collectBlocks openTagH16 closeTagH16 (fun t => jsTrim (stripTags t))
    (html.length + 1) html).filter fun t => !t.isEmpty

/-- Match, at the head, `<meta[^>]+name=["']description["'][^>]+content=["']`
followed by the captured `[^"']*["']` value — the first meta-description
regex of `extractMetaDescription`. -/
def metaDescAt1 (s : Str) : Option Str :=
  match dropCi ("<meta").toList s with
  | none => none
  | some r =>
    match findAttrEq (("name=").toList) 0 r with
    | none => none
    | some r2 =>
      match quoteLit (("description").toList) r2 with
      | none => none
      | some r3 =>
        match findAttrEq (("content=").toList) 0 r3 with
        | none => none
        | some r4 => (quoteCapture r4).map (·.1)
where
  /-- Find `attr` (case-insensitively) within the non-`>` run, at offset at
  least 1; returns the remainder after it. -/
  findAttrEq (attr : Str) : Nat → Str → Option Str
    | _, [] => none
    | k, s2@(c :: rest) =>
      if c == '>' then none
      else
        match (if 1 ≤ k then dropCi attr s2 else none) with
        | some r => some r
        | none => findAttrEq attr (k + 1) rest
  /-- Match `["']pat["']`. -/
  quoteLit (pat : Str) (s2 : Str) : Option Str :=
    match s2 with
    | q :: r =>
      if isQuote q then
        match dropCi pat r with
        | some (q2 :: r2) => if isQuote q2 then some r2 else none
        | _ => none
      else none
    | [] => none
  /-- Capture `["']([^"']*)["']`. -/
  quoteCapture (s2 : Str) : Option (Str × Str) :=
    match s2 with
    | q :: r => if isQuote q then quoteCaptureGo r [] else none
    | [] => none
  /-- Value characters until the closing quote. -/
  quoteCaptureGo : Str → Str → Option (Str × Str)
    | [], _ => none
    | c :: rest, acc =>
      if isQuote c then some (acc.reverse, rest)
      else quoteCaptureGo rest (c :: acc)

/-- The second (attribute-order swapped) meta-description regex. -/
def metaDescAt2 (s : Str) : Option Str :=
  match dropCi ("<meta").toList s with
  | none => none
  | some r =>
    match metaDescAt1.findAttrEq (("content=").toList) 0 r with
    | none => none
    | some r2 =>
      match metaDescAt1.quoteCapture r2 with
      | none => none
      | some (v, r3) =>
        match metaDescAt1.findAttrEq (("name=").toList) 0 r3 with
        | none => none
        | some r4 =>
          match metaDescAt1.quoteLit (("description").toList) r4 with
          | none => none
          | some _ => some v

/-- `ContentExtractor.extractMetaDescription`: first regex, else the swapped
one; trimmed, empty degrading to `null`. -/
def extractMetaDescription (html : Str) : Option Str :=
  match (firstSome metaDescAt1 html).orElse fun _ => firstSome metaDescAt2 html with
  | some v =>
    let t := jsTrim v
    if t.isEmpty then none else some t
  | none => none

/-- Keep an extracted candidate title only if non-empty (JS truthiness). -/
def pickNonempty : Option Str → Option Str
  | some t => if t.isEmpty then none else some t
  | none => none

/-- `ContentExtractor.extractTitle`: `<title>`, else first `<h1>`, else the
literal `Untitled`. -/
def extractTitle (html : Str) : Str :=
  match pickNonempty ((firstBlockCapture (openTag ("title").toList)
      (closeTag ("title").toList) html).map fun t => jsTrim (stripTags t)) with
  | some t => t
  | none =>
    match pickNonempty ((firstBlockCapture (openTag ("h1").toList)
        (closeTag ("h1").toList) html).map fun t => jsTrim (stripTags t)) with
    | some t => t
    | none => ("Untitled").toList

end ContentExtractor

/-- `String.prototype.lastIndexOf(pat)`: the greatest index at which `pat`
occurs (`none` for JS `-1`). -/
def lastIndexOfSub (s pat : Str) : Option Nat :=
  ((List.range (s.length + 1)).filter fun i => pat.isPrefixOf (s.drop i)).getLast?

/-- `lastIndexOf(…) + 1` over the JS `-1` sentinel. -/
def idxPlus1 : Option Nat → Nat
  | some i => i + 1
  | none => 0

/-- `lastIndexOf(…)` with the JS `-1` sentinel mapped to `0`; under the
enclosing `Math.max` against a term that is at least `0` this is exactly the
JS value. -/
def idxOr0 : Option Nat → Nat
  | some i => i
  | none => 0

namespace ContentExtractor

/-- `ContentExtractor.truncateContent`.  JS computes
`cutPoint = Math.max(lastIndexOf('. ') + 1, lastIndexOf('\n'))` over `-1`
sentinels; over `Nat`, mapping the `-1` sentinel of both sides to `0` yields
the same cut position, and the float test `cutPoint > maxChars * 0.5` is
exactly `2 * cutPoint > maxChars` for integers. -/
def truncateContent (content : Str) (maxChars : Nat := 3000) : Str :=
  if content.length ≤ maxChars then content
  else
    let truncated := content.take maxChars
    let lastSentencePlus1 := idxPlus1 (lastIndexOfSub truncated ((". ").toList))
    let lastNewline := idxOr0 (lastIndexOfSub truncated (("\n").toList))
    let cutPoint := max lastSentencePlus1 lastNewline
    if 2 * cutPoint > maxChars then jsTrim (truncated.take cutPoint)
    else jsTrim truncated

/-- `ContentExtractor.createContentHash`: first 16 hex characters of the
SHA-256 digest of the content. -/
def createContentHash (content : Str) : Str :=
  (SHA256.hexDigest content).take 16

end ContentExtractor

/-- The page-type classification enum of the normalizer. -/
inductive PageType where
  | home
  | about
  | team
  | contact
  | faq
  | pricing
  | blog
  | product
  | service
  | other
  deriving DecidableEq, Repr

/-- A parsed URL, as much of the WHATWG `new URL` record as this repository
reads: scheme, lowercased host, pathname and the query/fragment tail. -/
structure URLRec where
  scheme : Str
  host : Str
  pathname : Str
  search : Str
  deriving DecidableEq, Repr

/-- Scheme characters after the first. -/
def schemeChar (c : Char) : Bool :=
  c.isAlpha || c.isDigit || c == '+' || c == '-' || c == '.'

/-- Parse `scheme:`, lowercasing the scheme. -/
def parseSchemeGo : Str → Str → Option (Str × Str)
  | [], _ => none
  | c :: rest, acc =>
    if c == ':' then some (acc.reverse, rest)
    else if schemeChar c then parseSchemeGo rest (Char.toLower c :: acc)
    else none

/-- Modelled from the host WHATWG URL constructor (`new URL(input)`),
restricted to the absolute forms this repository constructs: an
`http(s)://host/path?query` URL, or an opaque-path URL for other schemes.
`none` models the constructor throwing. -/
def parseUrl (input : Str) : Option URLRec :=
  let s := ((input.dropWhile fun c => c.toNat ≤ 0x20).reverse.dropWhile
    fun c => c.toNat ≤ 0x20).reverse
  let s := s.filter fun c => !(c == '\t' || c == '\n' || c == '\r')
  match s with
  | c :: rest =>
    if c.isAlpha then
      match parseSchemeGo rest [Char.toLower c] with
      | none => none
      | some (scheme, tail) =>
        if scheme = ("http").toList ∨ scheme = ("https").toList then
          match tail with
          | '/' :: '/' :: r =>
            let host := r.takeWhile fun ch => !(ch == '/' || ch == '?' || ch == '#')
            let tail2 := r.dropWhile fun ch => !(ch == '/' || ch == '?' || ch == '#')
            if host.isEmpty then none
            else
              let pathname := tail2.takeWhile fun ch => !(ch == '?' || ch == '#')
              let search := tail2.dropWhile fun ch => !(ch == '?' || ch == '#')
              some ⟨scheme, lowerStr host, if pathname.isEmpty then ['/'] else pathname, search⟩
          | _ => none
        else
          let pathname := tail.takeWhile fun ch => !(ch == '?' || ch == '#')
          let search := tail.dropWhile fun ch => !(ch == '?' || ch == '#')
          some ⟨scheme, [], pathname, search⟩
    else none
  | [] => none

/-- The serialized URL (`.href`). -/
def URLRec.href (u : URLRec) : Str :=
  if u.host.isEmpty then u.scheme ++ [':'] ++ u.pathname ++ u.search
  else u.scheme ++ ("://").toList ++ u.host ++ u.pathname ++ u.search

namespace ContentExtractor

/-- Does `s` contain any of the literal alternatives (`/(a|b|…)/.test`)? -/
def hasAny (pats : List Str) (s : Str) : Bool :=
  pats.any fun p => hasSub p s

/-- `ContentExtractor.classifyPage`: path-pattern classification first, then
title/lead-content keyword fallback, defaulting to `other`.  `new URL(url)`
throwing on an unparsable `url` is modelled by `Except.error`. -/
def classifyPage (url : Str) (title : Str) (content : Str) : Except Unit PageType :=
  match parseUrl url with
  | none => .error ()
  | some u =>
    let path := lowerStr u.pathname
    let lowerTitle := lowerStr title
    let lowerContent := lowerStr (content.take 500)
    let signals := path ++ [' '] ++ lowerTitle ++ [' '] ++ lowerContent
    .ok <|
      if path = ['/'] || path = [] then .home
      else if hasAny [("/about").toList, ("/over").toList, ("/over-ons").toList,
        ("/wie-zijn-wij").toList, ("/about-us").toList] path then .about
      else if hasAny [("/team").toList, ("/medewerkers").toList, ("/ons-team").toList,
        ("/our-team").toList] path then .team
      else if hasAny [("/contact").toList, ("/contactgegevens").toList,
        ("/neem-contact").toList] path then .contact
      else if hasAny [("/faq").toList, ("/veelgestelde-vragen").toList,
        ("/help").toList, ("/support").toList] path then .faq
      else if hasAny [("/pricing").toList, ("/prijzen").toList, ("/tarieven").toList,
        ("/plans").toList, ("/pakketten").toList] path then .pricing
      else if hasAny [("/blog").toList, ("/nieuws").toList, ("/news").toList,
        ("/artikel").toList, ("/article").toList] path then .blog
      else if hasAny [("/product").toList, ("/producten").toList,
        ("/products").toList] path then .product
      else if hasAny [("/service").toList, ("/dienst").toList, ("/diensten").toList,
        ("/services").toList, ("/oplossing").toList, ("/solution").toList] path then .service
      else if hasAny [("contact").toList, ("bereik").toList, ("reach").toList,
        ("bel ons").toList, ("mail ons").toList] signals then .contact
      else if hasAny [("faq").toList, ("veelgestelde").toList,
        ("frequently asked").toList] signals then .faq
      else if hasAny [("prijs").toList, ("tarief").toList, ("pricing").toList,
        ("plans").toList, ("pakket").toList] signals then .pricing
      else if hasAny [("over ons").toList, ("about us").toList,
        ("wie zijn wij").toList, ("ons verhaal").toList] signals then .about
      else if hasAny [("blog").toList, ("artikel").toList, ("article").toList,
        ("geplaatst op").toList, ("posted on").toList] signals then .blog
      else .other

end ContentExtractor

/-- The spec's NormalizedPage (`ChatSyncPage` in the source), without the
wall-clock `scraped_at` field, which the embedding does not model. -/
structure ChatSyncPage where
  url : Str
  title : Str
  content : Str
  meta_description : Option Str
  headings : List Str
  page_type : PageType
  content_hash : Str
  deriving DecidableEq, Repr

/-- `ChatSyncOrchestrator.extractPage`
(src/services/google-ads-orchestrator.ts, lines 261-278). -/
def ChatSyncOrchestrator.extractPage (html : Str) (url : Str) :
    Except Unit ChatSyncPage :=
  let mainContent := ContentExtractor.extractMainContent html
  let headings := ContentExtractor.extractHeadings mainContent
  let markdown := ContentExtractor.htmlToMarkdown mainContent
  let content := ContentExtractor.truncateContent markdown 3000
  let title := ContentExtractor.extractTitle html
  match ContentExtractor.classifyPage url title content with
  | .error e => .error e
  | .ok pt =>
    .ok ⟨url, title, content, ContentExtractor.extractMetaDescription html,
      headings, pt, ContentExtractor.createContentHash content⟩

/-! ### Discovery engine (DiscoveryService, src/services/discovery.ts, with
`normalizeUrl`/`getCareerPageCandidates` from src/utils/url.ts and
`extractCareerLinks` from src/services/scraper.ts) -/

/-- `normalizeUrl` (src/utils/url.ts): prefix `https://` when no scheme,
rewrite a leading `http://` to `https://`. -/
def normalizeUrl (url : Str) : Str :=
  if !(("http://").toList.isPrefixOf url) && !(("https://").toList.isPrefixOf url) then
    ("https://").toList ++ url
  else
    match litTok (("http://").toList) url with
    | some rest => ("https://").toList ++ rest
    | none => url

/-- Strip a literal prefix if present (an anchored single regex replace). -/
def stripOnce (pat : Str) (s : Str) : Str :=
  match litTok pat s with
  | some r => r
  | none => s

/-- Order-preserving deduplication (`[...new Set(xs)]`). -/
def jsSetDedup (l : List Str) : List Str := dedupGo l []
where
  /-- Keep first occurrences. -/
  dedupGo : List Str → List Str → List Str
    | [], _ => []
    | x :: rest, seen =>
      if seen.contains x then dedupGo rest seen
      else x :: dedupGo rest (x :: seen)

/-- `getCareerPageCandidates` (src/utils/url.ts): career subdomains first,
then conventional paths on the cleaned domain, deduplicated. -/
def getCareerPageCandidates (domain : Str) : List Str :=
  let d1 :=
    match litTok (("https://").toList) domain with
    | some r => r
    | none => stripOnce (("http://").toList) domain
  let d2 := stripOnce (("www.").toList) d1
  let cleanDomain :=
    match d2.reverse with
    | '/' :: r => r.reverse
    | _ => d2
  let base := ("https://").toList ++ cleanDomain
  let baseName := cleanDomain.takeWhile fun c => c != '.'
  let subdomains : List Str :=
    [("https://www.werkenbij").toList ++ baseName ++ (".nl").toList,
     ("https://werkenbij").toList ++ baseName ++ (".nl").toList,
     ("https://careers.").toList ++ cleanDomain,
     ("https://jobs.").toList ++ cleanDomain,
     ("https://werkenbij.").toList ++ cleanDomain,
     ("https://werken.").toList ++ cleanDomain]
  let paths : List Str :=
    [("/vacatures").toList, ("/careers").toList, ("/jobs").toList,
     ("/werken-bij").toList, ("/werkenbij").toList, ("/werk").toList,
     ("/jobs/all").toList, ("/careers/jobs").toList, ("/nl/vacatures").toList,
     ("/nl/careers").toList, ("/en/careers").toList, ("/over-ons/vacatures").toList,
     ("/join-us").toList, ("/join").toList, ("/team").toList,
     ("/open-positions").toList, ("/job-openings").toList]
  jsSetDedup (subdomains ++ paths.map fun p => base ++ p)

/-- Resolve an href against a base URL, modelled from the host
`new URL(href, base).href` for the http(s) forms the repository meets
(`none` models the constructor throwing; dot-segment normalization and
userinfo/port handling are not modelled). -/
def resolveUrl (href : Str) (base : Str) : Option Str :=
  match parseUrl href with
  | some u => some u.href
  | none =>
    match parseUrl base with
    | none => none
    | some b =>
      if b.host.isEmpty then none
      else if ("//").toList.isPrefixOf href then
        (parseUrl (b.scheme ++ [':'] ++ href)).map (·.href)
      else if href = [] then some b.href
      else if href.headD ' ' == '/' then
        some (b.scheme ++ ("://").toList ++ b.host ++ href)
      else if href.headD ' ' == '?' then
        some (b.scheme ++ ("://").toList ++ b.host ++ b.pathname ++ href)
      else
        let dir := (b.pathname.reverse.dropWhile fun c => c != '/').reverse
        some (b.scheme ++ ("://").toList ++ b.host ++ dir ++ href)

/-- Collect `(href, text)` pairs of
`/<a[^>]+href=["']([^"']+)["'][^>]*>([^<]*)/gi` matches. -/
def anchorsGo : Nat → Str → List (Str × Str)
  | 0, _ => []
  | _ + 1, [] => []
  | fuel + 1, s@(_ :: rest) =>
    match openAnchorHref s with
    | some (href, afterGt) =>
      let text := afterGt.takeWhile fun c => c != '<'
      let after := afterGt.dropWhile fun c => c != '<'
      (href, text) :: anchorsGo fuel after
    | none => anchorsGo fuel rest

/-- The keyword list of `ScraperService.extractCareerLinks`. -/
def careerLinkKeywords : List Str :=
  [("career").toList, ("jobs").toList, ("vacatur").toList, ("werken").toList,
   ("join").toList, ("hiring").toList, ("openings").toList]

/-- `ScraperService.extractCareerLinks` (src/services/scraper.ts, lines
26-48): anchors whose href or text contains a career keyword, resolved
against the base (invalid URLs silently skipped), deduplicated. -/
def ScraperService.extractCareerLinks (html : Str) (baseUrl : Str) : List Str :=
  jsSetDedup ((anchorsGo (html.length + 1) html).filterMap fun p =>
    if careerLinkKeywords.any fun kw =>
        hasSub kw (lowerStr p.1) || hasSub kw (lowerStr p.2) then
      resolveUrl p.1 baseUrl
    else none)

/-- The `Platform` enum (`null` is modelled by `Option`). -/
inductive Platform where
  | recruitee
  | greenhouse
  | lever
  | workable
  deriving DecidableEq, Repr

/-- The CAREER_KEYWORDS list of src/services/discovery.ts. -/
def CAREER_KEYWORDS : List Str :=
  [("career").toList, ("careers").toList, ("job").toList, ("jobs").toList,
   ("vacatur").toList, ("vacancies").toList, ("vacancy").toList,
   ("werken").toList, ("werk").toList, ("hiring").toList, ("openings").toList,
   ("positions").toList, ("join").toList, ("recruitment").toList,
   ("talent").toList, ("opportunities").toList, ("sollicit").toList]

/-- The response of the raw `fetch` used for sitemaps: `ok` is
`response.ok`, `body` the text. -/
structure RawResponse where
  ok : Bool
  body : Str

/-- The network effects of `DiscoveryService`: `rawFetch` models the global
`fetch` used for sitemaps, `scrape` models `this.scraper.fetch`. -/
structure DiscoveryEnv where
  rawFetch : Str → Except Unit RawResponse
  scrape : Str → Except Unit (Str × Nat)

namespace DiscoveryService

/-- `parseSitemapXml`: all `<loc>…</loc>` contents, trimmed. -/
def locScanGo : Nat → Str → List Str
  | 0, _ => []
  | _ + 1, [] => []
  | fuel + 1, s@(_ :: rest) =>
    match dropCi ("<loc>").toList s with
    | some r =>
      let cap := r.takeWhile fun c => c != '<'
      let r2 := r.dropWhile fun c => c != '<'
      if cap.isEmpty then locScanGo fuel rest
      else
        match dropCi ("</loc>").toList r2 with
        | some r3 => jsTrim cap :: locScanGo fuel r3
        | none => locScanGo fuel rest
    | none => locScanGo fuel rest

/-- `DiscoveryService.parseSitemapXml` (src/services/discovery.ts). -/
def parseSitemapXml (xml : Str) : List Str := locScanGo (xml.length + 1) xml

/-- Fetch up to the given nested sitemaps, merging their entries. -/
def fetchNested (env : DiscoveryEnv) : List Str → List Str → List Str
  | [], acc => acc
  | nu :: rest, acc =>
    match env.rawFetch nu with
    | .ok r =>
      if r.ok then fetchNested env rest (acc ++ parseSitemapXml r.body)
      else fetchNested env rest acc
    | .error _ => fetchNested env rest acc

/-- The sitemap-probing loop of `fetchSitemapUrls`: try each conventional
location, merge nested career sitemaps, and stop at the first location that
yields any URL. -/
def fetchSitemapLoop (env : DiscoveryEnv) : List Str → List Str → List Str
  | [], acc => acc
  | su :: rest, acc =>
    match env.rawFetch su with
    | .error _ => fetchSitemapLoop env rest acc
    | .ok resp =>
      if !resp.ok then fetchSitemapLoop env rest acc
      else
        let urls := parseSitemapXml resp.body
        let nested := urls.filter fun u => ((".xml").toList).isSuffixOf u
        let acc2 :=
          if nested.isEmpty then acc
          else
            let careerSitemaps := nested.filter fun u =>
              CAREER_KEYWORDS.any fun kw => hasSub kw (lowerStr u)
            fetchNested env (careerSitemaps.take 3) acc
        let acc3 := acc2 ++ urls
        if acc3.isEmpty then fetchSitemapLoop env rest acc3
        else acc3

/-- `DiscoveryService.fetchSitemapUrls` (src/services/discovery.ts, lines
15-75): probe conventional sitemap locations and keep the career-related
entries. -/
def fetchSitemapUrls (env : DiscoveryEnv) (domain : Str) : List Str :=
  let baseUrl := normalizeUrl domain
  let sitemapUrls :=
    [baseUrl ++ ("/sitemap.xml").toList,
     baseUrl ++ ("/sitemap_index.xml").toList,
     baseUrl ++ ("/sitemap-index.xml").toList,
     baseUrl ++ ("/sitemaps.xml").toList]
  (fetchSitemapLoop env sitemapUrls []).filter fun url =>
    CAREER_KEYWORDS.any fun kw => hasSub kw (lowerStr url)

/-- `DiscoveryService.detectPlatform`: URL-pattern platform fingerprint. -/
def detectPlatform (url : Str) : Option Platform :=
  let lower := lowerStr url
  if hasSub ("recruitee.com").toList lower then some .recruitee
  else if hasSub ("greenhouse.io").toList lower then some .greenhouse
  else if hasSub ("lever.co").toList lower then some .lever
  else if hasSub ("workable.com").toList lower then some .workable
  else none

/-- `DiscoveryService.detectPlatformFromHtml`: markup-signature platform
fingerprint. -/
def detectPlatformFromHtml (html : Str) : Option Platform :=
  let lower := lowerStr html
  if hasSub ("recruitee").toList lower ||
      hasSub ("d3ii2lldyojfer.cloudfront.net").toList lower then some .recruitee
  else if hasSub ("greenhouse-jobboard").toList lower ||
      hasSub ("boards.greenhouse.io").toList lower then some .greenhouse
  else if hasSub ("lever-jobs").toList lower ||
      hasSub ("jobs.lever.co").toList lower then some .lever
  else if hasSub ("workable-careers").toList lower then some .workable
  else none

/-- `DiscoveryService.looksLikeCareerPage` (src/services/discovery.ts, lines
213-223): the lowercased content contains one of the career phrases. -/
def looksLikeCareerPage (html : Str) : Bool :=
  let lower := lowerStr html
  [("vacancy").toList, ("vacancies").toList, ("vacature").toList,
   ("vacatures").toList, ("job opening").toList, ("job listings").toList,
   ("open position").toList, ("we are hiring").toList, ("join our team").toList,
   ("career").toList, ("werken bij").toList, ("kom werken").toList].any
    fun indicator => hasSub indicator lower

/-- Case-insensitive suffix test. -/
def endsWithCi (suf : String) (s : Str) : Bool :=
  (lowerStr suf.toList).isSuffixOf (lowerStr s)

/-- The `mainPagePatterns` test of `sortCareerUrls`:
`/\/(careers?|jobs?|vacatures?|werken-bij|werkenbij)\/?$/i` or
`/\/(careers?|jobs?|vacatures?)\/(overview|all|list)?\/?$/i`, as suffix
alternatives. -/
def isMainCareerUrl (url : Str) : Bool :=
  (["career", "careers", "job", "jobs", "vacature", "vacatures",
    "werken-bij", "werkenbij"].any fun a =>
    endsWithCi ("/" ++ a) url || endsWithCi ("/" ++ a ++ "/") url) ||
  (["career", "careers", "job", "jobs", "vacature", "vacatures"].any fun a =>
    endsWithCi ("/" ++ a ++ "/") url || endsWithCi ("/" ++ a ++ "//") url ||
    (["overview", "all", "list"].any fun m =>
      endsWithCi ("/" ++ a ++ "/" ++ m) url ||
      endsWithCi ("/" ++ a ++ "/" ++ m ++ "/") url))

/-- The comparator of `sortCareerUrls` as a strict comes-before test. -/
def careerBefore (a b : Str) : Bool :=
  let am := isMainCareerUrl a
  let bm := isMainCareerUrl b
  if am && !bm then true
  else if bm && !am then false
  else a.length < b.length

/-- Stable insertion into a sorted list (insert after equivalent entries). -/
def insSorted (x : Str) : List Str → List Str
  | [] => [x]
  | y :: ys => if careerBefore x y then x :: y :: ys else y :: insSorted x ys

/-- `DiscoveryService.sortCareerUrls` (src/services/discovery.ts, lines
197-211): stable sort by the main-page-first, then-shorter comparator
(`Array.prototype.sort` is stable, so any stable sorting algorithm realizes
it). -/
def sortCareerUrls (urls : List Str) : List Str :=
  urls.foldl (fun acc u => insSorted u acc) []

/-- A found career page: the spec's DiscoveryResult. -/
structure DiscoveryResult where
  url : Str
  html : Str
  platform : Option Platform
  additionalUrls : List Str
  deriving DecidableEq, Repr

/-- The result construction shared by the three stages. -/
def mkResult (additional : List Str) (u html : Str) : DiscoveryResult :=
  ⟨u, html, (detectPlatform u).orElse fun _ => detectPlatformFromHtml html,
    additional⟩

/-- The sequential probe loop of stages 1 and 3: fetch each candidate via
the scraper, skip errors and HTTP statuses at least 400, and return the first
page that looks like a career page.  The second component logs every URL
passed to the scraper. -/
def probeLoop (env : DiscoveryEnv) (mk : Str → Str → DiscoveryResult) :
    List Str → List Str → Option DiscoveryResult × List Str
  | [], log => (none, log)
  | u :: rest, log =>
    match env.scrape u with
    | .error _ => probeLoop env mk rest (log ++ [u])
    | .ok (html, status) =>
      if 400 ≤ status then probeLoop env mk rest (log ++ [u])
      else if looksLikeCareerPage html then (some (mk u html), log ++ [u])
      else probeLoop env mk rest (log ++ [u])

/-- Batches of three (`candidates.slice(i, i + 3)`). -/
def chunk3 : List Str → List (List Str)
  | [] => []
  | [a] => [[a]]
  | [a, b] => [[a, b]]
  | a :: b :: c :: rest => [a, b, c] :: chunk3 rest

/-- Scan the settled results of one batch in order for the first usable
career page. -/
def scanBatch (mk : Str → Str → DiscoveryResult) :
    List (Str × Except Unit (Str × Nat)) → Option DiscoveryResult
  | [] => none
  | (u, res) :: rest =>
    match res with
    | .error _ => scanBatch mk rest
    | .ok (html, status) =>
      if 400 ≤ status then scanBatch mk rest
      else if looksLikeCareerPage html then some (mk u html)
      else scanBatch mk rest

/-- Stage 2: probe candidate batches; all members of a batch are fetched
(`Promise.allSettled`), then scanned in batch order. -/
def batchLoop (env : DiscoveryEnv) (mk : Str → Str → DiscoveryResult) :
    List (List Str) → List Str → Option DiscoveryResult × List Str
  | [], log => (none, log)
  | batch :: rest, log =>
    let results := batch.map fun u => (u, env.scrape u)
    match scanBatch mk results with
    | some r => (some r, log ++ batch)
    | none => batchLoop env mk rest (log ++ batch)

/-- Stage 3: fetch the homepage; when reachable with a non-error status,
probe up to three harvested career links.  The outer try/catch maps a
homepage fetch failure to not-found. -/
def homepageStage (env : DiscoveryEnv) (domain : Str) (sitemapUrls : List Str)
    (log : List Str) : Option DiscoveryResult × List Str :=
  let home := normalizeUrl domain
  match env.scrape home with
  | .error _ => (none, log ++ [home])
  | .ok (html, homeStatus) =>
    if homeStatus < 400 then
      probeLoop env (mkResult (sitemapUrls.take 50))
        ((ScraperService.extractCareerLinks html home).take 3) (log ++ [home])
    else (none, log ++ [home])

/-- `DiscoveryService.findCareerPage` (src/services/discovery.ts, lines
118-195), instrumented with the list of URLs passed to `scraper.fetch`:
sitemap-ranked probing, then heuristic candidate batches, then homepage link
harvesting. -/
def findCareerPageLog (env : DiscoveryEnv) (domain : Str) :
    Option DiscoveryResult × List Str :=
  let sitemapUrls := fetchSitemapUrls env domain
  let stage1 :=
    if 0 < sitemapUrls.length then
      let sortedUrls := sortCareerUrls sitemapUrls
      probeLoop env (mkResult (sortedUrls.take 50)) (sortedUrls.take 5) []
    else (none, [])
  match stage1 with
  | (some r, log) => (some r, log)
  | (none, log) =>
    match batchLoop env (mkResult (sitemapUrls.take 50))
        (chunk3 (getCareerPageCandidates domain)) log with
    | (some r, log2) => (some r, log2)
    | (none, log2) => homepageStage env domain sitemapUrls log2

/-- `DiscoveryService.findCareerPage`: the result without the log. -/
def findCareerPage (env : DiscoveryEnv) (domain : Str) : Option DiscoveryResult :=
  (findCareerPageLog env domain).1

end DiscoveryService

/-- A discovery environment for concrete runs: no sitemap responds, and only
`https://careers.example.nl` serves a (career) page. -/
def c4env : DiscoveryEnv where
  rawFetch := fun _ => .error ()
  scrape := fun u =>
    if u = ("https://careers.example.nl").toList then
      .ok (("we are hiring at example").toList, 200)
    else .error ()

/-!  ## Theorems  -/

/-- C2 (counterexample): the page `longShellHtml` has stripped text content
longer than 500 characters, yet `needsJavaScript` returns `true` on it because
it matches the `loading...` shell marker — the claim says it must return
`false` whenever the stripped text exceeds the threshold. -/
theorem C2_needsJavaScript_counterexample :
    1000 ≤ longShellHtml.length ∧
    500 < (jsTrim (collapseWs (stripTagsSpace longShellHtml))).length ∧
    ScraperService.hasSpaIndicator longShellHtml = true ∧
    ScraperService.needsJavaScript longShellHtml = true := by
  refine ⟨by decide, by decide, by decide, by decide⟩

/-- C2 (amended): a shell/SPA marker alone forces `needsJavaScript` to return
`true` even when the stripped text exceeds 500 characters; `needsJavaScript`
returns `false` exactly when the page is at least 1000 characters long, no
shell marker matches, and the stripped text exceeds 500 characters; and it
returns `true` for the empty-root-shell and empty-body pages. -/
theorem C2_needsJavaScript_amended :
    (∀ html : Str,
      ScraperService.needsJavaScript html =
        (decide (html.length < 1000) || ScraperService.hasSpaIndicator html ||
          !decide (500 < (jsTrim (collapseWs (stripTagsSpace html))).length))) ∧
    ScraperService.needsJavaScript emptyRootShellHtml = true ∧
    ScraperService.needsJavaScript emptyBodyHtml = true := by
  refine ⟨fun html => ?_, by decide, by decide⟩
  unfold ScraperService.needsJavaScript
  by_cases h : html.length < 1000 <;> simp [h]

/-- C3: `fetch` reports `usedPlaywright = false` exactly when the HTTP attempt
succeeded with status 200 and a body that does not need JavaScript; an HTTP
exception is converted into the Playwright fallback rather than propagated;
whenever the HTTP result is unusable the outcome is exactly the Playwright
outcome (so a Playwright exception propagates); and `fetch` can only throw
when Playwright threw. -/
theorem C3_fetch_fallback_semantics (env : FetchEnv) (url : Str) :
    (∀ r, ScraperService.fetch env url = .ok r →
      (r.usedPlaywright = false ↔
        env.http url = .ok (r.html, r.status) ∧ r.status = 200 ∧
          ScraperService.needsJavaScript r.html = false)) ∧
    (env.http url = .error () →
      ScraperService.fetch env url = (env.pw url).map fun p => ⟨p.1, true, p.2⟩) ∧
    (∀ html status, env.http url = .ok (html, status) →
      status ≠ 200 ∨ ScraperService.needsJavaScript html = true →
      ScraperService.fetch env url = (env.pw url).map fun p => ⟨p.1, true, p.2⟩) ∧
    (∀ e, ScraperService.fetch env url = .error e → env.pw url = .error e) := by
  cases hhttp : env.http url with
  | error e =>
    have hf : ScraperService.fetch env url =
        (env.pw url).map fun p => ⟨p.1, true, p.2⟩ := by
      unfold ScraperService.fetch
      rw [hhttp]
    refine ⟨?_, fun _ => hf, ?_, ?_⟩
    · intro r hr
      rw [hf] at hr
      cases hpw : env.pw url with
      | ok q =>
        rw [hpw] at hr
        have hr2 : Except.ok (FetchResult.mk q.1 true q.2) = Except.ok r := hr
        injection hr2 with h
        subst h
        constructor
        · intro h
          cases h
        · rintro ⟨h1, -, -⟩
          cases h1
      | error e2 =>
        rw [hpw] at hr
        have hr2 : (Except.error e2 : Except Unit FetchResult) = Except.ok r := hr
        cases hr2
    · intro html status hh
      cases hh
    · intro e2 he
      rw [hf] at he
      cases hpw : env.pw url with
      | ok q =>
        rw [hpw] at he
        have he2 : Except.ok (FetchResult.mk q.1 true q.2) = Except.error e2 := he
        cases he2
      | error e3 =>
        rw [hpw] at he
  | ok pr =>
    obtain ⟨html, status⟩ := pr
    by_cases hc : (status == 200 && !ScraperService.needsJavaScript html) = true
    · have hf : ScraperService.fetch env url = .ok ⟨html, false, status⟩ := by
        unfold ScraperService.fetch
        rw [hhttp]
        simp only [hc, if_true]
      obtain ⟨h200, hjs⟩ : status = 200 ∧ ScraperService.needsJavaScript html = false := by
        simpa only [Bool.and_eq_true, beq_iff_eq, Bool.not_eq_true'] using hc
      refine ⟨?_, ?_, ?_, ?_⟩
      · intro r hr
        rw [hf] at hr
        injection hr with h
        subst h
        constructor
        · intro _
          exact ⟨rfl, h200, hjs⟩
        · intro _
          rfl
      · intro h
        cases h
      · intro html2 status2 hh hbad
        injection hh with h
        injection h with h1 h2
        subst h1
        subst h2
        rcases hbad with h | h
        · exact absurd h200 h
        · rw [hjs] at h
          cases h
      · intro e he
        rw [hf] at he
        cases he
    · have hf : ScraperService.fetch env url =
          (env.pw url).map fun p => ⟨p.1, true, p.2⟩ := by
        unfold ScraperService.fetch
        rw [hhttp]
        simp only [if_neg hc]
      have hcase : status ≠ 200 ∨ ScraperService.needsJavaScript html = true := by
        by_cases h200 : status = 200
        · right
          by_contra hjs
          rw [Bool.not_eq_true] at hjs
          exact hc (by simp [h200, hjs])
        · exact Or.inl h200
      refine ⟨?_, ?_, fun _ _ _ _ => hf, ?_⟩
      · intro r hr
        rw [hf] at hr
        cases hpw : env.pw url with
        | ok q =>
          rw [hpw] at hr
          have hr2 : Except.ok (FetchResult.mk q.1 true q.2) = Except.ok r := hr
          injection hr2 with h
          subst h
          constructor
          · intro h
            cases h
          · rintro ⟨h1, h2, h3⟩
            injection h1 with h1
            injection h1 with ha hb
            subst ha
            subst hb
            have h2x : q.2 = 200 := h2
            have h3x : ScraperService.needsJavaScript q.1 = false := h3
            rcases hcase with h | h
            · exact absurd h2x h
            · rw [h3x] at h
              cases h
        | error e2 =>
          rw [hpw] at hr
          have hr2 : (Except.error e2 : Except Unit FetchResult) = Except.ok r := hr
          cases hr2
      · intro h
        cases h
      · intro e he
        rw [hf] at he
        cases hpw : env.pw url with
        | ok q =>
          rw [hpw] at he
          have he2 : Except.ok (FetchResult.mk q.1 true q.2) = Except.error e := he
          cases he2
        | error e3 =>
          rw [hpw] at he

/-- C3 (witness): in an environment whose HTTP channel throws, `fetch` returns
the Playwright result with `usedPlaywright = true`. -/
theorem C3_fetch_fallback_witness :
    ScraperService.fetch httpFailEnv ("https://example.nl").toList =
      .ok ⟨("rendered").toList, true, 200⟩ := by
  have h := (C3_fetch_fallback_semantics httpFailEnv ("https://example.nl").toList).2.1 rfl
  simpa [httpFailEnv] using h

/-- C10: every page shorter than 1000 characters is classified as needing
JavaScript, unconditionally; consequently a 200 HTTP response with such a body
is still routed through the Playwright browser fallback by `fetch`. -/
theorem C10_short_page_browser_fallback (html : Str) (h : html.length < 1000) :
    ScraperService.needsJavaScript html = true ∧
    ∀ (env : FetchEnv) (url : Str), env.http url = .ok (html, 200) →
      ScraperService.fetch env url = (env.pw url).map fun p => ⟨p.1, true, p.2⟩ := by
  have hjs : ScraperService.needsJavaScript html = true := by
    unfold ScraperService.needsJavaScript
    simp [h]
  refine ⟨hjs, fun env url hhttp => ?_⟩
  unfold ScraperService.fetch
  rw [hhttp]
  simp [hjs]

/-- C10 (witness): the four-character page `tiny` is routed through the
browser fallback despite a 200 HTTP status. -/
theorem C10_short_page_browser_fallback_witness :
    ScraperService.needsJavaScript ("tiny").toList = true ∧
    ScraperService.fetch shortPageEnv ("https://example.nl").toList =
      (shortPageEnv.pw ("https://example.nl").toList).map fun p => ⟨p.1, true, p.2⟩ := by
  have h := C10_short_page_browser_fallback ("tiny").toList (by decide)
  exact ⟨h.1, h.2 shortPageEnv ("https://example.nl").toList rfl⟩



/-- Unfolding `CacheService.get` with no primary store configured. -/
theorem CacheService.get_none_eq {α : Type} (st : CacheState α) (now : Nat) (key : Str) :
    CacheService.get none st now key =
      (match st.memoryCache key with
      | some cached =>
        if now < cached.expires then (some cached.data, st)
        else (none, ⟨fun k => if k = key then none else st.memoryCache k⟩)
      | none => (none, ⟨fun k => if k = key then none else st.memoryCache k⟩)) := rfl

/-- Unfolding `CacheService.get` with a primary store configured. -/
theorem CacheService.get_some_eq {α : Type} (env : RedisEnv α) (st : CacheState α)
    (now : Nat) (key : Str) :
    CacheService.get (some env) st now key =
      (match env.get key with
      | .ok d => (d, st)
      | .error _ => (none, st)) := rfl

/-- Unfolding `CacheService.set` with a primary store configured. -/
theorem CacheService.set_some_eq {α : Type} (env : RedisEnv α) (st : CacheState α)
    (now : Nat) (key : Str) (data : α) (ttl : Option Nat) :
    CacheService.set (some env) st now key data ttl =
      (match env.setex key (ttl.getD CacheService.defaultTtl) data with
      | .ok _ => st
      | .error _ =>
        ⟨fun k => if k = key then
            some ⟨data, now + (ttl.getD CacheService.defaultTtl) * 1000⟩
          else st.memoryCache k⟩) := rfl

/-- Unfolding `CacheService.set` with no primary store configured. -/
theorem CacheService.set_none_eq {α : Type} (st : CacheState α)
    (now : Nat) (key : Str) (data : α) (ttl : Option Nat) :
    CacheService.set none st now key data ttl =
      ⟨fun k => if k = key then
          some ⟨data, now + (ttl.getD CacheService.defaultTtl) * 1000⟩
        else st.memoryCache k⟩ := rfl

/-- C1 (counterexample): with a configured primary store whose operations all
fail, `set` does fall back to the local store, but a subsequent `get` whose
primary read fails returns `null` without consulting the local store — the
claim's round trip `set(k,v,ttl); get(k) = v` fails. -/
theorem C1_cache_fallback_counterexample :
    (CacheService.set (some redisFailEnv) (CacheState.empty Nat) 0
        (("k").toList) 5 (some 60)).memoryCache (("k").toList) =
      some ⟨5, 60000⟩ ∧
    (CacheService.get (some redisFailEnv)
        (CacheService.set (some redisFailEnv) (CacheState.empty Nat) 0
          (("k").toList) 5 (some 60)) 0 (("k").toList)).1 ≠ some 5 := by
  constructor
  · decide
  · decide

/-- C1 (amended): no primary-store error is ever surfaced by `get` or `set`
(both are total); on a primary error `set` silently falls back to the local
store, writing `{data, expires = now + ttl·1000}` and leaving other keys
untouched, while `get` silently returns `null` (it does not consult the
local store). -/
theorem C1_cache_primary_error_amended {α : Type} (env : RedisEnv α)
    (st : CacheState α) (now : Nat) (key : Str) :
    (env.get key = .error () →
      CacheService.get (some env) st now key = (none, st)) ∧
    (∀ (data : α) (ttl : Option Nat),
      env.setex key (ttl.getD CacheService.defaultTtl) data = .error () →
      (CacheService.set (some env) st now key data ttl).memoryCache key =
          some ⟨data, now + (ttl.getD CacheService.defaultTtl) * 1000⟩ ∧
        ∀ k, k ≠ key →
          (CacheService.set (some env) st now key data ttl).memoryCache k =
            st.memoryCache k) := by
  constructor
  · intro h
    rw [CacheService.get_some_eq, h]
  · intro data ttl h
    rw [CacheService.set_some_eq, h]
    constructor
    · simp
    · intro k hk
      simp [hk]

/-- C1 (witness): the amended claim at the all-failing primary store. -/
theorem C1_cache_primary_error_witness :
    CacheService.get (some redisFailEnv) (CacheState.empty Nat) 0 (("k").toList) =
      (none, CacheState.empty Nat) ∧
    (CacheService.set (some redisFailEnv) (CacheState.empty Nat) 0
        (("k").toList) 5 (some 60)).memoryCache (("k").toList) =
      some ⟨5, 60000⟩ :=
  ⟨(C1_cache_primary_error_amended redisFailEnv (CacheState.empty Nat) 0
      (("k").toList)).1 rfl,
   ((C1_cache_primary_error_amended redisFailEnv (CacheState.empty Nat) 0
      (("k").toList)).2 5 (some 60) rfl).1⟩

/-- C7: local-store round trip.  With no primary store configured and a
positive `ttl`: immediately after `set k v ttl`, `get k` returns `v`; once
`ttl` seconds have elapsed on the injected clock, `get k` returns `null`; a
key absent from the local map reads as `null`; and `get` never returns an
entry at or past its expiry time. -/
theorem C7_cache_roundtrip {α : Type} (st : CacheState α) (now : Nat)
    (key : Str) (v : α) (ttl : Nat) (hpos : 0 < ttl) :
    (CacheService.get none (CacheService.set none st now key v (some ttl))
        now key).1 = some v ∧
    (∀ later, now + ttl * 1000 ≤ later →
      (CacheService.get none (CacheService.set none st now key v (some ttl))
        later key).1 = none) ∧
    (∀ (st2 : CacheState α) (t : Nat) (k : Str), st2.memoryCache k = none →
      (CacheService.get none st2 t k).1 = none) ∧
    (∀ (st2 : CacheState α) (t : Nat) (k : Str) (w : α),
      (CacheService.get none st2 t k).1 = some w →
      ∃ e, st2.memoryCache k = some e ∧ e.data = w ∧ t < e.expires) := by
  have hmem : (CacheService.set none st now key v (some ttl)).memoryCache key =
      some ⟨v, now + ttl * 1000⟩ := by
    rw [CacheService.set_none_eq]
    simp [CacheService.defaultTtl]
  refine ⟨?_, ?_, ?_, ?_⟩
  · rw [CacheService.get_none_eq, hmem]
    have h : now < now + ttl * 1000 :=
      Nat.lt_add_of_pos_right (Nat.mul_pos hpos (by norm_num))
    simp [h]
  · intro later hlater
    rw [CacheService.get_none_eq, hmem]
    have h : ¬later < now + ttl * 1000 := Nat.not_lt.mpr hlater
    simp [h]
  · intro st2 t k hk
    rw [CacheService.get_none_eq, hk]
  · intro st2 t k w hget
    rw [CacheService.get_none_eq] at hget
    cases hme : st2.memoryCache k with
    | some e =>
      rw [hme] at hget
      have hget2 : (if t < e.expires then (some e.data, st2)
          else ((none : Option α),
            (⟨fun k2 => if k2 = k then none else st2.memoryCache k2⟩ : CacheState α))).1 =
          some w := hget
      by_cases ht : t < e.expires
      · rw [if_pos ht] at hget2
        injection hget2 with h
        exact ⟨e, rfl, h, ht⟩
      · rw [if_neg ht] at hget2
        cases hget2
    | none =>
      rw [hme] at hget
      have hget2 : (none : Option α) = some w := hget
      cases hget2

/-- C7 (witness): the round trip at concrete values (`ttl = 60` seconds,
clock starting at 0). -/
theorem C7_cache_roundtrip_witness :
    (CacheService.get none
      (CacheService.set none (CacheState.empty Nat) 0 (("k").toList) 5 (some 60))
      0 (("k").toList)).1 = some 5 ∧
    (CacheService.get none
      (CacheService.set none (CacheState.empty Nat) 0 (("k").toList) 5 (some 60))
      60000 (("k").toList)).1 = none :=
  ⟨(C7_cache_roundtrip (CacheState.empty Nat) 0 (("k").toList) 5 60
      (by decide)).1,
   (C7_cache_roundtrip (CacheState.empty Nat) 0 (("k").toList) 5 60
      (by decide)).2.1 60000 (by decide)⟩

/-- C8 (counterexample): the inputs `" example.nl"` and `"example.nl"` differ
only in whitespace (their trims coincide), yet `keyFor` maps them to distinct
keys — `keyFor` does not normalize whitespace, only case. -/
theorem C8_keyFor_counterexample :
    jsTrim ((" example.nl").toList) = jsTrim (("example.nl").toList) ∧
    CacheService.keyFor ((" example.nl").toList) ≠
      CacheService.keyFor (("example.nl").toList) := by
  constructor
  · decide
  · decide

/-- C8 (amended): `keyFor` is a pure, deterministic function that is
insensitive to letter case (any two inputs with equal lowercasings share a
key) — but not to whitespace — and the lowercased inputs `"Example.nl"` /
`"example.nl"` collide while the distinct domains `"a.nl"` and `"b.nl"`
receive distinct keys. -/
theorem C8_keyFor_amended :
    (∀ s t : Str, lowerStr s = lowerStr t →
      CacheService.keyFor s = CacheService.keyFor t) ∧
    CacheService.keyFor (("Example.nl").toList) =
      CacheService.keyFor (("example.nl").toList) ∧
    CacheService.keyFor (("a.nl").toList) ≠ CacheService.keyFor (("b.nl").toList) := by
  refine ⟨fun s t h => ?_, by decide, by decide⟩
  unfold CacheService.keyFor
  rw [h]

/-- C8 (witness): case-insensitivity applied at `"Example.nl"`. -/
theorem C8_keyFor_witness :
    CacheService.keyFor (("Example.nl").toList) =
      CacheService.keyFor (("example.nl").toList) :=
  C8_keyFor_amended.1 (("Example.nl").toList) (("example.nl").toList) (by decide)

/-- `dropWhile` does not lengthen a list. -/
theorem length_dropWhile_le_self (p : Char → Bool) (l : Str) :
    (l.dropWhile p).length ≤ l.length := by
  induction l with
  | nil => simp
  | cons c rest ih =>
    by_cases h : p c
    · simp only [List.dropWhile, h]
      exact Nat.le_succ_of_le ih
    · simp [List.dropWhile, h]

/-- Trimming does not lengthen a string. -/
theorem jsTrim_length_le (s : Str) : (jsTrim s).length ≤ s.length := by
  unfold jsTrim
  calc ((s.dropWhile isJsSpace).reverse.dropWhile isJsSpace).reverse.length
      = ((s.dropWhile isJsSpace).reverse.dropWhile isJsSpace).length :=
        List.length_reverse _
    _ ≤ (s.dropWhile isJsSpace).reverse.length := length_dropWhile_le_self _ _
    _ = (s.dropWhile isJsSpace).length := List.length_reverse _
    _ ≤ s.length := length_dropWhile_le_self _ _

/-- A `lastIndexOfSub` result is an in-range occurrence of the pattern. -/
theorem lastIndexOfSub_spec (s pat : Str) (i : Nat)
    (h : lastIndexOfSub s pat = some i) :
    i ≤ s.length ∧ ∃ t, s.drop i = pat ++ t := by
  unfold lastIndexOfSub at h
  have hm := List.mem_of_mem_getLast? h
  rw [List.mem_filter] at hm
  obtain ⟨hr, hp⟩ := hm
  rw [List.mem_range] at hr
  obtain ⟨t, ht⟩ := List.isPrefixOf_iff_prefix.mp hp
  exact ⟨by omega, t, ht.symm⟩

/-- Any position of the range satisfying `p` is bounded by the last element
of the filtered range. -/
theorem le_getLast_filter_range (p : Nat → Bool) :
    ∀ (n i : Nat), i < n → p i = true →
      ∃ j, ((List.range n).filter p).getLast? = some j ∧ i ≤ j ∧ p j = true := by
  intro n
  induction n with
  | zero =>
    intro i hi _
    exact absurd hi (Nat.not_lt_zero i)
  | succ n ih =>
    intro i hi hp
    rw [List.range_succ, List.filter_append]
    by_cases hn : p n = true
    · have h1 : List.filter p [n] = [n] := by
        simp [hn]
      rw [h1]
      exact ⟨n, List.getLast?_concat _, by omega, hn⟩
    · have h1 : List.filter p [n] = [] := by
        simp [List.filter_cons, hn]
      rw [h1, List.append_nil]
      have hin : i < n := by
        by_cases him : i = n
        · subst him
          exact absurd hp hn
        · omega
      exact ih i hin hp

/-- Any occurrence of a non-empty pattern is bounded by `lastIndexOfSub`:
the returned index really is the last occurrence. -/
theorem occ_le_lastIndexOfSub (s pat : Str) (hpat : pat ≠ []) (i : Nat) (t : Str)
    (h : s.drop i = pat ++ t) :
    ∃ j, lastIndexOfSub s pat = some j ∧ i ≤ j := by
  have hi : i < s.length := by
    by_contra hle
    push_neg at hle
    rw [List.drop_eq_nil_of_le hle] at h
    cases pat with
    | nil => exact hpat rfl
    | cons c cs => cases h
  have hp : pat.isPrefixOf (s.drop i) = true := by
    rw [h]
    exact List.isPrefixOf_iff_prefix.mpr ⟨t, rfl⟩
  obtain ⟨j, hg, hij, -⟩ :=
    le_getLast_filter_range (fun k => pat.isPrefixOf (s.drop k)) (s.length + 1) i
      (by omega) hp
  exact ⟨j, hg, hij⟩

/-- C9 (amended): content at most `maxChars` long is returned unchanged;
longer content is cut and trimmed, never exceeding `maxChars` characters.
The cut position `cut` is the *last* sentence boundary (the kept prefix ends
right after the `.` of a `". "`) or newline of the `maxChars` prefix — last,
because every other sentence or newline boundary is at most `cut` — or `0`
when there is none; and the cut is conditional exactly as the code decides:
when `cut` lies past half the budget the result is the trimmed cut at `cut`
(so never mid-sentence), otherwise it is the trimmed full `maxChars` prefix
(whose trimming can make the hard cut shorter than the budget). -/
theorem C9_truncateContent_amended (content : Str) (maxChars : Nat) :
    (content.length ≤ maxChars →
      ContentExtractor.truncateContent content maxChars = content) ∧
    (maxChars < content.length →
      (ContentExtractor.truncateContent content maxChars).length ≤ maxChars ∧
      ∃ cut, cut ≤ maxChars ∧
        ((1 ≤ cut ∧
            ∃ rest, (content.take maxChars).drop (cut - 1) = '.' :: ' ' :: rest) ∨
         (∃ rest, (content.take maxChars).drop cut = '\n' :: rest) ∨
         cut = 0) ∧
        (∀ b rest, (content.take maxChars).drop (b - 1) = '.' :: ' ' :: rest →
          b ≤ cut) ∧
        (∀ b rest, (content.take maxChars).drop b = '\n' :: rest → b ≤ cut) ∧
        (maxChars < 2 * cut →
          ContentExtractor.truncateContent content maxChars =
            jsTrim (content.take cut)) ∧
        (¬maxChars < 2 * cut →
          ContentExtractor.truncateContent content maxChars =
            jsTrim (content.take maxChars))) := by
  constructor
  · intro h
    unfold ContentExtractor.truncateContent
    rw [if_pos h]
  · intro h
    have hnle : ¬ content.length ≤ maxChars := by omega
    have hTlen : (content.take maxChars).length = maxChars := by
      rw [List.length_take]
      omega
    have htake : ∀ k, k ≤ maxChars →
        (content.take maxChars).take k = content.take k := by
      intro k hk
      rw [List.take_take]
      congr 1
      omega
    have lenb : ∀ c : Nat,
        (jsTrim ((content.take maxChars).take c)).length ≤ maxChars := by
      intro c
      calc (jsTrim ((content.take maxChars).take c)).length
          ≤ ((content.take maxChars).take c).length := jsTrim_length_le _
        _ ≤ maxChars := by
            rw [List.length_take, hTlen]
            omega
    have lenb0 : (jsTrim (content.take maxChars)).length ≤ maxChars := by
      calc (jsTrim (content.take maxChars)).length
          ≤ (content.take maxChars).length := jsTrim_length_le _
        _ = maxChars := hTlen
    have hsmax : ∀ (iv : Nat) (b : Nat) (rest : Str),
        lastIndexOfSub (content.take maxChars) ((". ").toList) = some iv →
        (content.take maxChars).drop (b - 1) = '.' :: ' ' :: rest →
        b ≤ iv + 1 := by
      intro iv b rest hms hb
      cases b with
      | zero => omega
      | succ m =>
        have hb2 : (content.take maxChars).drop m = ((". ").toList) ++ rest := hb
        obtain ⟨j2, hg, hle⟩ :=
          occ_le_lastIndexOfSub (content.take maxChars) ((". ").toList)
            (by decide) m rest hb2
        rw [hms] at hg
        injection hg with hg
        omega
    have hsnone : ∀ (b : Nat) (rest : Str),
        lastIndexOfSub (content.take maxChars) ((". ").toList) = none →
        (content.take maxChars).drop (b - 1) = '.' :: ' ' :: rest →
        b = 0 := by
      intro b rest hms hb
      cases b with
      | zero => rfl
      | succ m =>
        have hb2 : (content.take maxChars).drop m = ((". ").toList) ++ rest := hb
        obtain ⟨j2, hg, -⟩ :=
          occ_le_lastIndexOfSub (content.take maxChars) ((". ").toList)
            (by decide) m rest hb2
        rw [hms] at hg
        cases hg
    have hnmax : ∀ (jv : Nat) (b : Nat) (rest : Str),
        lastIndexOfSub (content.take maxChars) (("\n").toList) = some jv →
        (content.take maxChars).drop b = '\n' :: rest →
        b ≤ jv := by
      intro jv b rest hmn hb
      have hb2 : (content.take maxChars).drop b = (("\n").toList) ++ rest := hb
      obtain ⟨j2, hg, hle⟩ :=
        occ_le_lastIndexOfSub (content.take maxChars) (("\n").toList)
          (by decide) b rest hb2
      rw [hmn] at hg
      injection hg with hg
      omega
    have hnnone : ∀ (b : Nat) (rest : Str),
        lastIndexOfSub (content.take maxChars) (("\n").toList) = none →
        (content.take maxChars).drop b = '\n' :: rest → False := by
      intro b rest hmn hb
      have hb2 : (content.take maxChars).drop b = (("\n").toList) ++ rest := hb
      obtain ⟨j2, hg, -⟩ :=
        occ_le_lastIndexOfSub (content.take maxChars) (("\n").toList)
          (by decide) b rest hb2
      rw [hmn] at hg
      cases hg
    unfold ContentExtractor.truncateContent
    rw [if_neg hnle]
    simp only []
    cases hms : lastIndexOfSub (content.take maxChars) ((". ").toList) with
    | some i =>
      simp only [idxPlus1, idxOr0]
      obtain ⟨hile, t1, ht1⟩ := lastIndexOfSub_spec _ _ _ hms
      have hi1 : i + 1 ≤ maxChars := by
        have hlen := congrArg List.length ht1
        rw [List.length_drop, hTlen] at hlen
        simp [List.length_append] at hlen
        omega
      have hdot : (content.take maxChars).drop i = '.' :: ' ' :: t1 := by
        simpa using ht1
      cases hmn : lastIndexOfSub (content.take maxChars) (("\n").toList) with
      | some j =>
        simp only [idxPlus1, idxOr0]
        obtain ⟨hjle, t2, ht2⟩ := lastIndexOfSub_spec _ _ _ hmn
        have hj1 : j + 1 ≤ maxChars := by
          have hlen := congrArg List.length ht2
          rw [List.length_drop, hTlen] at hlen
          simp [List.length_append] at hlen
          omega
        have hnl : (content.take maxChars).drop j = '\n' :: t2 := by
          simpa using ht2
        refine ⟨?_, max (i + 1) j, by omega, ?_, ?_, ?_, ?_, ?_⟩
        · by_cases hc : maxChars < 2 * max (i + 1) j
          · rw [if_pos hc]
            exact lenb _
          · rw [if_neg hc]
            exact lenb0
        · rcases Nat.le_total j (i + 1) with hmx | hmx
          · rw [Nat.max_eq_left hmx]
            exact Or.inl ⟨by omega, t1, by simpa using hdot⟩
          · rw [Nat.max_eq_right hmx]
            exact Or.inr (Or.inl ⟨t2, hnl⟩)
        · intro b rest hb
          have := hsmax i b rest hms hb
          have h2 := Nat.le_max_left (i + 1) j
          omega
        · intro b rest hb
          have := hnmax j b rest hmn hb
          have h2 := Nat.le_max_right (i + 1) j
          omega
        · intro hcc
          rw [if_pos hcc, htake _ (by omega)]
        · intro hcc
          rw [if_neg hcc]
      | none =>
        simp only [idxPlus1, idxOr0]
        rw [Nat.max_eq_left (Nat.zero_le _)]
        refine ⟨?_, i + 1, by omega,
          Or.inl ⟨by omega, t1, by simpa using hdot⟩, ?_, ?_, ?_, ?_⟩
        · by_cases hc : maxChars < 2 * (i + 1)
          · rw [if_pos hc]
            exact lenb _
          · rw [if_neg hc]
            exact lenb0
        · intro b rest hb
          exact hsmax i b rest hms hb
        · intro b rest hb
          exact absurd (hnnone b rest hmn hb) (by simp)
        · intro hcc
          rw [if_pos hcc, htake _ (by omega)]
        · intro hcc
          rw [if_neg hcc]
    | none =>
      simp only [idxPlus1, idxOr0]
      cases hmn : lastIndexOfSub (content.take maxChars) (("\n").toList) with
      | some j =>
        simp only [idxPlus1, idxOr0]
        obtain ⟨hjle, t2, ht2⟩ := lastIndexOfSub_spec _ _ _ hmn
        have hj1 : j + 1 ≤ maxChars := by
          have hlen := congrArg List.length ht2
          rw [List.length_drop, hTlen] at hlen
          simp [List.length_append] at hlen
          omega
        have hnl : (content.take maxChars).drop j = '\n' :: t2 := by
          simpa using ht2
        rw [Nat.max_eq_right (Nat.zero_le _)]
        refine ⟨?_, j, by omega, Or.inr (Or.inl ⟨t2, hnl⟩), ?_, ?_, ?_, ?_⟩
        · by_cases hc : maxChars < 2 * j
          · rw [if_pos hc]
            exact lenb _
          · rw [if_neg hc]
            exact lenb0
        · intro b rest hb
          have := hsnone b rest hms hb
          omega
        · intro b rest hb
          exact hnmax j b rest hmn hb
        · intro hcc
          rw [if_pos hcc, htake _ (by omega)]
        · intro hcc
          rw [if_neg hcc]
      | none =>
        simp only [idxPlus1, idxOr0, Nat.max_self]
        refine ⟨?_, 0, Nat.zero_le _, Or.inr (Or.inr rfl), ?_, ?_, ?_, ?_⟩
        · rw [if_neg (by omega)]
          exact lenb0
        · intro b rest hb
          have := hsnone b rest hms hb
          omega
        · intro b rest hb
          exact absurd (hnnone b rest hmn hb) (by simp)
        · intro hcc
          omega
        · intro hcc
          rw [if_neg (by omega)]

/-- C9 (witness): the amended statement applied at a short content with no
sentence boundary (`maxChars = 8`), exhibiting the trimmed hard cut. -/
theorem C9_truncateContent_witness :
    8 < (("aaaaaaa bbbb").toList).length ∧
    (ContentExtractor.truncateContent (("aaaaaaa bbbb").toList) 8).length ≤ 8 :=
  ⟨by decide,
    ((C9_truncateContent_amended (("aaaaaaa bbbb").toList) 8).2 (by decide)).1⟩

/-- C9 (counterexample): on `"aaaaaaa bbbb"` with budget 8 there is no
sentence boundary or newline, so the claim requires a hard cut at exactly 8
characters; the code trims the cut and returns the 7-character `"aaaaaaa"`. -/
theorem C9_truncateContent_counterexample :
    lastIndexOfSub ((("aaaaaaa bbbb").toList).take 8) ((". ").toList) = none ∧
    lastIndexOfSub ((("aaaaaaa bbbb").toList).take 8) (("\n").toList) = none ∧
    ContentExtractor.truncateContent (("aaaaaaa bbbb").toList) 8 =
      ("aaaaaaa").toList ∧
    (ContentExtractor.truncateContent (("aaaaaaa bbbb").toList) 8).length ≠ 8 := by
  refine ⟨by decide, by decide, by decide, by decide⟩

/-- The hex digest always has 64 characters. -/
theorem hexDigest_length (s : Str) : (SHA256.hexDigest s).length = 64 := by
  unfold SHA256.hexDigest SHA256.digestWords
  simp [SHA256.wordHex]

/-- `createContentHash` always has 16 characters. -/
theorem createContentHash_length (s : Str) :
    (ContentExtractor.createContentHash s).length = 16 := by
  unfold ContentExtractor.createContentHash
  rw [List.length_take, hexDigest_length]
  decide

/-- Field reduction on a literal page record. -/
theorem ChatSyncPage.mk_content (u t c : Str) (m : Option Str) (hs : List Str)
    (pt : PageType) (ch : Str) :
    (ChatSyncPage.mk u t c m hs pt ch).content = c := rfl

/-- Field reduction on a literal page record. -/
theorem ChatSyncPage.mk_content_hash (u t c : Str) (m : Option Str) (hs : List Str)
    (pt : PageType) (ch : Str) :
    (ChatSyncPage.mk u t c m hs pt ch).content_hash = ch := rfl

/-- Helper: the hash and content fields of a successfully extracted page. -/
theorem extractPage_ok_fields (h u : Str) (p : ChatSyncPage)
    (he : ChatSyncOrchestrator.extractPage h u = .ok p) :
    p.content_hash = ContentExtractor.createContentHash p.content ∧
    p.content = ContentExtractor.truncateContent
      (ContentExtractor.htmlToMarkdown (ContentExtractor.extractMainContent h)) 3000 := by
  unfold ChatSyncOrchestrator.extractPage at he
  simp only [] at he
  cases hc : ContentExtractor.classifyPage u (ContentExtractor.extractTitle h)
      (ContentExtractor.truncateContent
        (ContentExtractor.htmlToMarkdown (ContentExtractor.extractMainContent h)) 3000) with
  | error e =>
    rw [hc] at he
    cases he
  | ok pt =>
    rw [hc] at he
    injection he with hp
    rw [← hp]
    refine ⟨?_, ?_⟩
    · rw [ChatSyncPage.mk_content_hash, ChatSyncPage.mk_content]
    · rw [ChatSyncPage.mk_content]

/-- C6: an extracted page's `content_hash` is exactly `createContentHash`
applied to its (truncated) `content` field — a fixed 16-hex-character SHA-256
prefix — and the `content` field is the truncation of the normalized
markdown; hence any two extracted pages with equal `content` share their
`content_hash`, whatever their `url`s or `title`s. -/
theorem C6_contentHash_pure (h1 u1 h2 u2 : Str) (p1 p2 : ChatSyncPage)
    (e1 : ChatSyncOrchestrator.extractPage h1 u1 = .ok p1)
    (e2 : ChatSyncOrchestrator.extractPage h2 u2 = .ok p2) :
    p1.content_hash = ContentExtractor.createContentHash p1.content ∧
    p1.content_hash.length = 16 ∧
    p1.content = ContentExtractor.truncateContent
      (ContentExtractor.htmlToMarkdown (ContentExtractor.extractMainContent h1)) 3000 ∧
    (p1.content = p2.content → p1.content_hash = p2.content_hash) := by
  obtain ⟨k1, k2⟩ := extractPage_ok_fields h1 u1 p1 e1
  obtain ⟨k3, -⟩ := extractPage_ok_fields h2 u2 p2 e2
  refine ⟨k1, ?_, k2, ?_⟩
  · rw [k1, createContentHash_length]
  · intro hcc
    rw [k1, k3, hcc]

set_option maxHeartbeats 2000000 in
/-- C6 (witness): two documents serving identical main content under
different URLs and titles hash identically. -/
theorem C6_contentHash_pure_witness :
    (⟨("https://x.nl/ppp").toList, ("Untitled").toList, ("Hello. World").toList,
      none, [], .other, ("5ace6ae6e5dbff70").toList⟩ : ChatSyncPage).content_hash =
    (⟨("https://y.nl/qqq").toList, ("Other").toList, ("Hello. World").toList,
      none, [], .other, ("5ace6ae6e5dbff70").toList⟩ : ChatSyncPage).content_hash :=
  (C6_contentHash_pure
    (("<main>Hello. World</main>").toList) (("https://x.nl/ppp").toList)
    (("<html><head><title>Other</title></head><body><main>Hello. World</main></body></html>").toList)
    (("https://y.nl/qqq").toList) _ _ (by decide) (by decide)).2.2.2 (by decide)

set_option maxHeartbeats 2000000 in
/-- C5 (counterexample): the url `not a url` is not parseable, so
`classifyPage` (which calls `new URL(url)` unguarded) throws, and
`extractPage` fails instead of producing a record — even though the HTML
itself is unproblematic. -/
theorem C5_extractPage_counterexample :
    parseUrl (("not a url").toList) = none ∧
    ChatSyncOrchestrator.extractPage (("<html><body><p>hi</p></body></html>").toList)
      (("not a url").toList) = .error () := by
  refine ⟨by decide, by decide⟩

/-- C5 (amended): for every HTML string and every *parseable* url, all
normalization steps run to completion and a full page record is produced,
with the degraded defaults (`Untitled`, `null` meta, `other` type) on
degenerate inputs; page-type classification parses the url unguarded, so a
non-parseable url makes `extractPage` throw instead. -/
theorem C5_extractPage_total (html url : Str) :
    (∀ r, parseUrl url = some r →
      ∃ page, ChatSyncOrchestrator.extractPage html url = .ok page ∧
        page.url = url ∧
        page.title = ContentExtractor.extractTitle html ∧
        page.meta_description = ContentExtractor.extractMetaDescription html) ∧
    (parseUrl url = none →
      ChatSyncOrchestrator.extractPage html url = .error ()) ∧
    ContentExtractor.extractTitle [] = ("Untitled").toList ∧
    ContentExtractor.extractMetaDescription [] = none ∧
    ContentExtractor.classifyPage (("https://example.nl/zzz").toList) [] [] =
      .ok .other := by
  refine ⟨?_, ?_, by decide, by decide, by decide⟩
  · intro r hr
    unfold ChatSyncOrchestrator.extractPage
    simp only []
    cases hc : ContentExtractor.classifyPage url (ContentExtractor.extractTitle html)
        (ContentExtractor.truncateContent
          (ContentExtractor.htmlToMarkdown (ContentExtractor.extractMainContent html)) 3000) with
    | error e =>
      exfalso
      unfold ContentExtractor.classifyPage at hc
      rw [hr] at hc
      cases hc
    | ok pt =>
      exact ⟨_, rfl, rfl, rfl, rfl⟩
  · intro hr
    unfold ChatSyncOrchestrator.extractPage
    simp only []
    have hc : ContentExtractor.classifyPage url (ContentExtractor.extractTitle html)
        (ContentExtractor.truncateContent
          (ContentExtractor.htmlToMarkdown (ContentExtractor.extractMainContent html)) 3000) =
        .error () := by
      unfold ContentExtractor.classifyPage
      rw [hr]
    rw [hc]

set_option maxHeartbeats 2000000 in
/-- C5 (witness): a parseable url yields a full record; the degradation
conjuncts hold. -/
theorem C5_extractPage_total_witness :
    ∃ page, ChatSyncOrchestrator.extractPage (("<p>hi</p>").toList)
        (("https://example.nl/x").toList) = .ok page ∧
      page.url = ("https://example.nl/x").toList ∧
      page.title = ContentExtractor.extractTitle (("<p>hi</p>").toList) ∧
      page.meta_description =
        ContentExtractor.extractMetaDescription (("<p>hi</p>").toList) :=
  (C5_extractPage_total (("<p>hi</p>").toList) (("https://example.nl/x").toList)).1
    ⟨("https").toList, ("example.nl").toList, ("/x").toList, []⟩ (by decide)

/-- Field reduction for `mkResult`. -/
theorem mkResult_url (a : List Str) (u h : Str) :
    (DiscoveryService.mkResult a u h).url = u := rfl

/-- Field reduction for `mkResult`. -/
theorem mkResult_html (a : List Str) (u h : Str) :
    (DiscoveryService.mkResult a u h).html = h := rfl

/-- Soundness of the sequential probe loop: a returned result was scraped
(and logged), had a non-error status, and passed the career-page test. -/
theorem probeLoop_sound (env : DiscoveryEnv) (add : List Str) :
    ∀ (urls log : List Str) (r : DiscoveryService.DiscoveryResult) (log2 : List Str),
      DiscoveryService.probeLoop env (DiscoveryService.mkResult add) urls log =
        (some r, log2) →
      r.url ∈ log2 ∧ ∃ s, env.scrape r.url = .ok (r.html, s) ∧ s < 400 ∧
        DiscoveryService.looksLikeCareerPage r.html = true := by
  intro urls
  induction urls with
  | nil =>
    intro log r log2 h
    simp only [DiscoveryService.probeLoop] at h
    cases (Prod.mk.injEq .. |>.mp h).1
  | cons u rest ih =>
    intro log r log2 h
    simp only [DiscoveryService.probeLoop] at h
    cases hsc : env.scrape u with
    | error e =>
      rw [hsc] at h
      exact ih (log ++ [u]) r log2 h
    | ok p =>
      obtain ⟨html, status⟩ := p
      rw [hsc] at h
      have h2 : (if 400 ≤ status then
          DiscoveryService.probeLoop env (DiscoveryService.mkResult add) rest (log ++ [u])
        else if DiscoveryService.looksLikeCareerPage html = true then
          (some (DiscoveryService.mkResult add u html), log ++ [u])
        else DiscoveryService.probeLoop env (DiscoveryService.mkResult add) rest (log ++ [u])) =
          (some r, log2) := h
      by_cases h4 : 400 ≤ status
      · rw [if_pos h4] at h2
        exact ih (log ++ [u]) r log2 h2
      · rw [if_neg h4] at h2
        by_cases hl : DiscoveryService.looksLikeCareerPage html = true
        · rw [if_pos hl] at h2
          obtain ⟨h5, h6⟩ := Prod.mk.injEq .. |>.mp h2
          injection h5 with h5
          subst h5
          subst h6
          refine ⟨?_, status, ?_, by omega, ?_⟩
          · rw [mkResult_url]
            exact List.mem_append_right _ (by simp)
          · rw [mkResult_url, mkResult_html]
            exact hsc
          · rw [mkResult_html]
            exact hl
        · rw [if_neg hl] at h2
          exact ih (log ++ [u]) r log2 h2

/-- Soundness of one batch scan over settled fetch results. -/
theorem scanBatch_sound (add : List Str) :
    ∀ (rs : List (Str × Except Unit (Str × Nat))) (r : DiscoveryService.DiscoveryResult),
      DiscoveryService.scanBatch (DiscoveryService.mkResult add) rs = some r →
      ∃ u html s, (u, Except.ok (html, s)) ∈ rs ∧ ¬400 ≤ s ∧
        DiscoveryService.looksLikeCareerPage html = true ∧
        r = DiscoveryService.mkResult add u html := by
  intro rs
  induction rs with
  | nil =>
    intro r h
    cases h
  | cons p rest ih =>
    intro r h
    obtain ⟨u, res⟩ := p
    simp only [DiscoveryService.scanBatch] at h
    cases res with
    | error e =>
      obtain ⟨u2, html, s, hm, h4, hl, hr⟩ := ih r h
      exact ⟨u2, html, s, List.mem_cons_of_mem _ hm, h4, hl, hr⟩
    | ok q =>
      obtain ⟨html, status⟩ := q
      have h2 : (if 400 ≤ status then
          DiscoveryService.scanBatch (DiscoveryService.mkResult add) rest
        else if DiscoveryService.looksLikeCareerPage html = true then
          some (DiscoveryService.mkResult add u html)
        else DiscoveryService.scanBatch (DiscoveryService.mkResult add) rest) = some r := h
      by_cases h4 : 400 ≤ status
      · rw [if_pos h4] at h2
        obtain ⟨u2, html2, s, hm, h5, hl, hr⟩ := ih r h2
        exact ⟨u2, html2, s, List.mem_cons_of_mem _ hm, h5, hl, hr⟩
      · rw [if_neg h4] at h2
        by_cases hl : DiscoveryService.looksLikeCareerPage html = true
        · rw [if_pos hl] at h2
          injection h2 with h2
          exact ⟨u, html, status, List.mem_cons_self _ _, h4, hl, h2.symm⟩
        · rw [if_neg hl] at h2
          obtain ⟨u2, html2, s, hm, h5, hl2, hr⟩ := ih r h2
          exact ⟨u2, html2, s, List.mem_cons_of_mem _ hm, h5, hl2, hr⟩

/-- Soundness of the batched heuristic stage. -/
theorem batchLoop_sound (env : DiscoveryEnv) (add : List Str) :
    ∀ (batches : List (List Str)) (log : List Str)
      (r : DiscoveryService.DiscoveryResult) (log2 : List Str),
      DiscoveryService.batchLoop env (DiscoveryService.mkResult add) batches log =
        (some r, log2) →
      r.url ∈ log2 ∧ ∃ s, env.scrape r.url = .ok (r.html, s) ∧ s < 400 ∧
        DiscoveryService.looksLikeCareerPage r.html = true := by
  intro batches
  induction batches with
  | nil =>
    intro log r log2 h
    simp only [DiscoveryService.batchLoop] at h
    cases (Prod.mk.injEq .. |>.mp h).1
  | cons batch rest ih =>
    intro log r log2 h
    simp only [DiscoveryService.batchLoop] at h
    cases hsb : DiscoveryService.scanBatch (DiscoveryService.mkResult add)
        (batch.map fun u => (u, env.scrape u)) with
    | some r0 =>
      rw [hsb] at h
      have h2 : ((some r0, log ++ batch) :
          Option DiscoveryService.DiscoveryResult × List Str) = (some r, log2) := h
      obtain ⟨h3, h4⟩ := Prod.mk.injEq .. |>.mp h2
      injection h3 with h3
      subst h3
      subst h4
      obtain ⟨u, html, s, hm, hs4, hl, hr⟩ := scanBatch_sound add _ r0 hsb
      obtain ⟨u2, hu2, he⟩ := List.mem_map.mp hm
      obtain ⟨heu, her⟩ := Prod.mk.injEq .. |>.mp he
      subst heu
      subst hr
      refine ⟨?_, s, ?_, by omega, ?_⟩
      · rw [mkResult_url]
        exact List.mem_append_right _ hu2
      · rw [mkResult_url, mkResult_html]
        exact her
      · rw [mkResult_html]
        exact hl
    | none =>
      rw [hsb] at h
      exact ih (log ++ batch) r log2 h

/-- Soundness of the homepage-link stage. -/
theorem homepageStage_sound (env : DiscoveryEnv) (domain : Str)
    (sitemapUrls log : List Str) (r : DiscoveryService.DiscoveryResult)
    (log2 : List Str)
    (h : DiscoveryService.homepageStage env domain sitemapUrls log = (some r, log2)) :
    r.url ∈ log2 ∧ ∃ s, env.scrape r.url = .ok (r.html, s) ∧ s < 400 ∧
      DiscoveryService.looksLikeCareerPage r.html = true := by
  unfold DiscoveryService.homepageStage at h
  simp only [] at h
  cases hsc : env.scrape (normalizeUrl domain) with
  | error e =>
    rw [hsc] at h
    have h2 : ((none, log ++ [normalizeUrl domain]) :
        Option DiscoveryService.DiscoveryResult × List Str) = (some r, log2) := h
    cases (Prod.mk.injEq .. |>.mp h2).1
  | ok p =>
    obtain ⟨html, homeStatus⟩ := p
    rw [hsc] at h
    have h2 : (if homeStatus < 400 then
        DiscoveryService.probeLoop env (DiscoveryService.mkResult (sitemapUrls.take 50))
          ((ScraperService.extractCareerLinks html (normalizeUrl domain)).take 3)
          (log ++ [normalizeUrl domain])
      else (none, log ++ [normalizeUrl domain])) = (some r, log2) := h
    by_cases h4 : homeStatus < 400
    · rw [if_pos h4] at h2
      exact probeLoop_sound env (sitemapUrls.take 50) _ _ r log2 h2
    · rw [if_neg h4] at h2
      cases (Prod.mk.injEq .. |>.mp h2).1

/-- Soundness of the full instrumented discovery run. -/
theorem findCareerPageLog_sound (env : DiscoveryEnv) (domain : Str)
    (r : DiscoveryService.DiscoveryResult) (log : List Str)
    (h : DiscoveryService.findCareerPageLog env domain = (some r, log)) :
    r.url ∈ log ∧ ∃ s, env.scrape r.url = .ok (r.html, s) ∧ s < 400 ∧
      DiscoveryService.looksLikeCareerPage r.html = true := by
  unfold DiscoveryService.findCareerPageLog at h
  simp only [] at h
  split at h
  · rename_i r1 log1 heq
    split at heq
    · rename_i hs
      obtain ⟨h3, h4⟩ := Prod.mk.injEq .. |>.mp h
      injection h3 with h3
      subst h3
      subst h4
      exact probeLoop_sound env _ _ _ _ _ heq
    · cases (Prod.mk.injEq .. |>.mp heq).1
  · rename_i log1 heq
    split at h
    · rename_i r2 log2 heq2
      obtain ⟨h3, h4⟩ := Prod.mk.injEq .. |>.mp h
      injection h3 with h3
      subst h3
      subst h4
      exact batchLoop_sound env _ _ _ _ _ heq2
    · rename_i log2 heq2
      exact homepageStage_sound env domain _ _ r log h

/-- C4: when `findCareerPage` returns a result, its `url` is one of the URLs
actually passed to the scraper during that run, that fetch returned the
result's `html` with an HTTP status below 400, and the content passed the
career-phrase test; contrapositively, when no probed candidate in the three
stages passes, `findCareerPage` returns `none`. -/
theorem C4_findCareerPage_sound (env : DiscoveryEnv) (domain : Str)
    (r : DiscoveryService.DiscoveryResult)
    (h : DiscoveryService.findCareerPage env domain = some r) :
    r.url ∈ (DiscoveryService.findCareerPageLog env domain).2 ∧
    ∃ s, env.scrape r.url = .ok (r.html, s) ∧ s < 400 ∧
      DiscoveryService.looksLikeCareerPage r.html = true := by
  unfold DiscoveryService.findCareerPage at h
  cases hfl : DiscoveryService.findCareerPageLog env domain with
  | mk o log =>
    rw [hfl] at h
    simp only [] at h
    subst h
    exact findCareerPageLog_sound env domain r log hfl

/-- C4 (witness): in an environment where only `https://careers.example.nl`
answers (with a hiring page), discovery returns exactly that fetched,
passing URL. -/
theorem C4_findCareerPage_sound_witness :
    (("https://careers.example.nl").toList : Str) ∈
      (DiscoveryService.findCareerPageLog c4env (("example.nl").toList)).2 ∧
    ∃ s, c4env.scrape (("https://careers.example.nl").toList) =
        .ok ((("we are hiring at example").toList : Str), s) ∧ s < 400 ∧
      DiscoveryService.looksLikeCareerPage (("we are hiring at example").toList) = true :=
  C4_findCareerPage_sound c4env (("example.nl").toList)
    ⟨("https://careers.example.nl").toList, ("we are hiring at example").toList,
      none, []⟩ (by decide)

end Scraper
